import Mathlib

/-!
Shallow embedding of the paged virtual-memory object (VMO) of this
repository, translated from src/kernel/kernel/vm/vm_object_paged.cpp.

The VMO core in vm_object_paged.cpp relies on a handful of helpers that live
in other files of the repository (kernel/vm headers, the page list, and the
physical-memory manager).  Those are not part of the provided sources, so
they are modelled from the specification; every such definition carries a
doc comment starting with "Modelled from the spec:".  Everything else is a
direct translation of the code in vm_object_paged.cpp.

Machine integers: all sizes, offsets and lengths in the source are uint64_t.
Every operation first clips its range against the object size, which is at
most MAX_SIZE, chosen so that the page arithmetic cannot overflow 64 bits;
the embedding therefore uses Nat, on which the source arithmetic and Nat
arithmetic agree for all reachable values.
-/

set_option maxHeartbeats 1000000
set_option maxRecDepth 2000
set_option linter.unusedVariables false

namespace MagentaVmo

/-- Size in bytes of one physical page; the kernel targets build with
4 KiB pages (spec: a power of two, at least 4096). -/
def PAGE_SIZE : Nat := 4096

/-- ROUNDUP(a, b) from the kernel headers: round a up to a multiple of b. -/
def ROUNDUP (a b : Nat) : Nat := (a + b - 1) / b * b

/-- ROUNDDOWN(a, b) from the kernel headers: round a down to a multiple of b. -/
def ROUNDDOWN (a b : Nat) : Nat := a / b * b

/-- ROUNDUP_PAGE_SIZE(a), as used throughout vm_object_paged.cpp. -/
def ROUNDUP_PAGE_SIZE (a : Nat) : Nat := ROUNDUP a PAGE_SIZE

/-- Modelled from the spec: the kernel's page-alignment helper used by
DecommitRange for the start of the affected range; the spec states
start = round_down_page(offset), so that a page partially covered at an
unaligned start belongs to the decommitted range (spec section 4.D). -/
def PAGE_ALIGN (a : Nat) : Nat := ROUNDDOWN a PAGE_SIZE

/-- Modelled from the spec: MAX_SIZE is the largest size such that
round_up_page(size) fits in 64 bits with room for page-count arithmetic
(spec section 6, Constants). -/
def MAX_SIZE : Nat := 2 ^ 64 - PAGE_SIZE

/-- Status codes returned by the VMO operations (err.h is transport around
the core; the abstract error kinds are from spec section 7). -/
inductive status_t where
  | NO_ERROR
  | ERR_OUT_OF_RANGE
  | ERR_NO_MEMORY
  | ERR_INVALID_ARGS
  | ERR_BUFFER_TOO_SMALL
  | ERR_ALREADY_EXISTS
  | ERR_NOT_FOUND
  deriving DecidableEq, Repr

/-- Modelled from the spec: the shared range-trim helper used by commit,
decommit and read/write (kernel/vm headers, not under the provided sources).
Spec sections 4.D and 9: a range whose offset lies beyond the object size is
rejected; otherwise the length is clipped so that offset + len is at most
size.  Returns the clipped length, or none for out-of-range. -/
def TrimRange (offset len size : Nat) : Option Nat :=
  if size < offset then none else some (min len (size - offset))

/-- Modelled from the spec: the range-check helper used by Lookup and
CacheOp (kernel/vm headers, not under the provided sources).  Spec section
4.D: the range must lie entirely within the object. -/
def InRange (offset len size : Nat) : Bool :=
  decide (offset + len ≤ size)

/-- Modelled from the spec: vm_page_to_paddr converts a page handle to the
physical address of its frame (spec section 4.A); pages are identified by a
natural id, each backing a distinct physical frame. -/
def vm_page_to_paddr (pid : Nat) : Nat := pid * PAGE_SIZE

/-- Modelled from the spec: base of the kernel physical map, used by
paddr_to_kvaddr. -/
def KERNEL_ASPACE_BASE : Nat := 2 ^ 63

/-- Modelled from the spec: paddr_to_kvaddr converts a physical address to
a kernel-virtual address for direct access (spec section 4.A). -/
def paddr_to_kvaddr (pa : Nat) : Nat := KERNEL_ASPACE_BASE + pa

/-- Modelled from the spec: the physical-memory-manager state (spec section
6).  free is the allocator's free list of page ids, handed out from the
head; requests is a ghost trace recording the size of every bulk
allocation request, used to observe how many pages an operation asked for. -/
structure Pmm where
  free : List Nat
  requests : List Nat
  deriving Repr, DecidableEq

/-- Modelled from the spec: pmm_alloc_page hands out one page from the free
list, or fails when the allocator is exhausted. -/
def pmm_alloc_page (p : Pmm) : Option Nat × Pmm :=
  match p.free with
  | [] => (none, p)
  | pid :: rest => (some pid, { p with free := rest })

/-- Modelled from the spec: pmm_alloc_pages(n) is the bulk allocation used
by CommitRange; it returns as many pages as it can, up to n (spec section
6: bulk, possibly partial). -/
def pmm_alloc_pages (n : Nat) (p : Pmm) : List Nat × Pmm :=
  (p.free.take n, { free := p.free.drop n, requests := p.requests ++ [n] })

/-- Modelled from the spec: pmm_alloc_contiguous(n) as used by
CommitRangeContiguous; same partial-allocation interface as
pmm_alloc_pages (the contiguity of the returned frames is a physical
property not observable at this level). -/
def pmm_alloc_contiguous (n : Nat) (p : Pmm) : List Nat × Pmm :=
  (p.free.take n, { free := p.free.drop n, requests := p.requests ++ [n] })

/-- Modelled from the spec: pmm_free returns a batch of pages to the
allocator. -/
def pmm_free (batch : List Nat) (p : Pmm) : Pmm :=
  { p with free := p.free ++ batch }

/-- Lookup in an association list keyed by page-aligned offset. -/
def listGetKey : List (Nat × Nat) → Nat → Option Nat
  | [], _ => none
  | e :: rest, k => if e.1 = k then some e.2 else listGetKey rest k

/-- Remove the entry with the given key, returning its page id and the
remaining list. -/
def listRemoveKey : List (Nat × Nat) → Nat → Option (Nat × List (Nat × Nat))
  | [], _ => none
  | e :: rest, k =>
    if e.1 = k then some (e.2, rest)
    else
      match listRemoveKey rest k with
      | none => none
      | some (pid, rest') => some (pid, e :: rest')

/-- Modelled from the spec: the page list is a sparse mapping from
page-aligned byte offset to an owned page (spec sections 3 and 4.B); lookups
index by the page containing the queried offset (spec 4.D GetPageLocked:
"the existing page at round_down_page(offset)"). -/
def pageListGet (pages : List (Nat × Nat)) (offset : Nat) : Option Nat :=
  listGetKey pages (ROUNDDOWN offset PAGE_SIZE)

/-- Modelled from the spec: page-list insertion at the page containing the
given offset; fails if an entry already exists there (spec section 4.B). -/
def pageListAdd (pages : List (Nat × Nat)) (pid offset : Nat) :
    Option (List (Nat × Nat)) :=
  if (pageListGet pages offset).isSome then none
  else some ((ROUNDDOWN offset PAGE_SIZE, pid) :: pages)

/-- The VMO fields protected by the lock: byte size and the page list
(vm_object.h: size_, page_list_). -/
structure Vmo where
  size : Nat
  pages : List (Nat × Nat)
  deriving Repr, DecidableEq

/-- The world a VMO operation acts on: the object itself, the allocator,
physical memory contents (page id and in-page index to byte), the set of
regions mapping the object, and two ghost traces — the unmap requests sent
to regions, and the architectural cache operations performed.  The traces
record the calls in program order. -/
structure World where
  vmo : Vmo
  pmm : Pmm
  mem : Nat → Nat → Nat
  regions : List Nat
  unmaps : List (Nat × Nat × Nat)
  cacheOps : List (Nat × Nat × Nat)

/-- ZeroPage from vm_object_paged.cpp: write PAGE_SIZE zero bytes through
the kernel-virtual mapping of the page. -/
def zeroPageMem (mem : Nat → Nat → Nat) (pid : Nat) : Nat → Nat → Nat :=
  fun q i => if q = pid then 0 else mem q i

/-- One byte of physical memory updated. -/
def memSet (mem : Nat → Nat → Nat) (pid off b : Nat) : Nat → Nat → Nat :=
  fun q i => if q = pid ∧ i = off then b else mem q i

/-- Write a run of bytes into one page of physical memory, starting at the
given in-page index (the memcpy target of the write routine). -/
def memWriteBytes : (Nat → Nat → Nat) → Nat → Nat → List Nat → (Nat → Nat → Nat)
  | mem, _, _, [] => mem
  | mem, pid, off, b :: rest => memWriteBytes (memSet mem pid off b) pid (off + 1) rest

/-- Read a run of bytes from one page of physical memory (the memcpy source
of the read routine). -/
def memBytes (mem : Nat → Nat → Nat) (pid off n : Nat) : List Nat :=
  (List.range n).map (fun i => mem pid (off + i))

/-- Overwrite a buffer with a run of bytes starting at a position (the
memcpy into the caller's buffer); positions past the end of the buffer are
dropped, as the caller guarantees capacity. -/
def listWriteAt : List Nat → Nat → List Nat → List Nat
  | l, _, [] => l
  | l, pos, b :: rest => listWriteAt (l.set pos b) (pos + 1) rest

/-- VmObjectPaged::GetPageLocked: absent if the offset is at or beyond the
size, else the page covering the offset. -/
def GetPageLocked (v : Vmo) (offset : Nat) : Option Nat :=
  if offset ≥ v.size then none else pageListGet v.pages offset

/-- VmObjectPaged::AddPage: reject offsets at or beyond the size, else
delegate to the page list. -/
def AddPage (w : World) (pid offset : Nat) : status_t × World :=
  if offset ≥ w.vmo.size then (status_t.ERR_OUT_OF_RANGE, w)
  else
    match pageListAdd w.vmo.pages pid offset with
    | none => (status_t.ERR_ALREADY_EXISTS, w)
    | some pages' => (status_t.NO_ERROR, { w with vmo := { w.vmo with pages := pages' } })

/-- VmObjectPaged::FaultPageLocked: return the existing page at the offset
if present; otherwise allocate one page, mark it OBJECT, zero it, and
insert it into the page list.  Fails when the offset is out of range or the
allocator is exhausted. -/
def FaultPageLocked (w : World) (offset : Nat) : Option Nat × World :=
  if offset ≥ w.vmo.size then (none, w)
  else
    match pageListGet w.vmo.pages offset with
    | some pid => (some pid, w)
    | none =>
      match pmm_alloc_page w.pmm with
      | (none, pmm') => (none, { w with pmm := pmm' })
      | (some pid, pmm') =>
        let mem' := zeroPageMem w.mem pid
        let pages' := (pageListAdd w.vmo.pages pid offset).getD w.vmo.pages
        (some pid, { w with pmm := pmm', mem := mem',
                            vmo := { w.vmo with pages := pages' } })

/-- An upper bound on the iterations of a loop that steps one page at a
time from o while below e; the loops below recurse structurally on it so
that they compute by kernel reduction, and each still tests the source's
loop condition so the fuel never changes the result. -/
def pageSteps (o e : Nat) : Nat := (e - o + PAGE_SIZE - 1) / PAGE_SIZE

/-- The counting pass of CommitRange over [o, e), one page at a time. -/
def missingGo (pages : List (Nat × Nat)) : Nat → Nat → Nat → Nat
  | 0, _, _ => 0
  | n + 1, o, e =>
    if o < e then
      (if (pageListGet pages o).isSome then 0 else 1) + missingGo pages n (o + PAGE_SIZE) e
    else 0

/-- The pass of CommitRange that counts the missing pages in [o, e). -/
def missingCount (pages : List (Nat × Nat)) (o e : Nat) : Nat :=
  missingGo pages (pageSteps o e) o e

/-- The installation pass of CommitRange: walk [o, e) by pages, attach one
allocated page (zeroed) to every missing slot, and sum PAGE_SIZE into the
committed counter per installed page. -/
def commitGo : Nat → World → List Nat → Nat → Nat → Nat → World × List Nat × Nat
  | 0, w, batch, _, _, committed => (w, batch, committed)
  | n + 1, w, batch, o, e, committed =>
    if o < e then
      match pageListGet w.vmo.pages o with
      | some _ => commitGo n w batch (o + PAGE_SIZE) e committed
      | none =>
        match batch with
        | [] => commitGo n w batch (o + PAGE_SIZE) e committed
        | pid :: rest =>
          let mem' := zeroPageMem w.mem pid
          let pages' := (pageListAdd w.vmo.pages pid o).getD w.vmo.pages
          commitGo n { w with mem := mem', vmo := { w.vmo with pages := pages' } }
            rest (o + PAGE_SIZE) e (committed + PAGE_SIZE)
    else (w, batch, committed)

/-- The installation pass with its iteration bound. -/
def commitLoop (w : World) (batch : List Nat) (o e committed : Nat) :
    World × List Nat × Nat :=
  commitGo (pageSteps o e) w batch o e committed

/-- VmObjectPaged::CommitRange.  Returns the status, the value left in
*committed, and the resulting world. -/
def CommitRange (w : World) (offset len : Nat) : status_t × Nat × World :=
  match TrimRange offset len w.vmo.size with
  | none => (status_t.ERR_OUT_OF_RANGE, 0, w)
  | some len' =>
    if len' = 0 then (status_t.NO_ERROR, 0, w)
    else
      let e := ROUNDUP_PAGE_SIZE (offset + len')
      let count := missingCount w.vmo.pages offset e
      if count = 0 then (status_t.NO_ERROR, 0, w)
      else
        let ar := pmm_alloc_pages count w.pmm
        if ar.1.length < count then
          (status_t.ERR_NO_MEMORY, 0, { w with pmm := pmm_free ar.1 ar.2 })
        else
          let r := commitLoop { w with pmm := ar.2 } ar.1 offset e 0
          (status_t.NO_ERROR, r.2.2, r.1)

/-- The installation pass of CommitRangeContiguous: every slot in the walk
removes the head of the batch; an empty batch there is the ASSERT(p)
panic, rendered as none. -/
def contigGo : Nat → World → List Nat → Nat → Nat → Nat → Option (World × Nat)
  | 0, w, _, _, _, committed => some (w, committed)
  | n + 1, w, batch, o, e, committed =>
    if o < e then
      match batch with
      | [] => none
      | pid :: rest =>
        let mem' := zeroPageMem w.mem pid
        let pages' := (pageListAdd w.vmo.pages pid o).getD w.vmo.pages
        contigGo n { w with mem := mem', vmo := { w.vmo with pages := pages' } }
          rest (o + PAGE_SIZE) e (committed + PAGE_SIZE)
    else some (w, committed)

/-- The contiguous installation pass with its iteration bound. -/
def contigLoop (w : World) (batch : List Nat) (o e committed : Nat) :
    Option (World × Nat) :=
  contigGo (pageSteps o e) w batch o e committed

/-- VmObjectPaged::CommitRangeContiguous.  none is the panic raised when
the range was not entirely missing (spec section 9, open question 4). -/
def CommitRangeContiguous (w : World) (offset len : Nat) :
    Option (status_t × Nat × World) :=
  match TrimRange offset len w.vmo.size with
  | none => some (status_t.ERR_OUT_OF_RANGE, 0, w)
  | some len' =>
    if len' = 0 then some (status_t.NO_ERROR, 0, w)
    else
      let e := ROUNDUP_PAGE_SIZE (offset + len')
      let count := missingCount w.vmo.pages offset e
      let ar := pmm_alloc_contiguous count w.pmm
      if ar.1.length < count then
        some (status_t.ERR_NO_MEMORY, 0, { w with pmm := pmm_free ar.1 ar.2 })
      else
        match contigLoop { w with pmm := ar.2 } ar.1 offset e 0 with
        | none => none
        | some (w', committed) => some (status_t.NO_ERROR, committed, w')

/-- Modelled from the spec: page_list_.FreePage removes the page at the
offset from the list and returns it to the page allocator; absent offsets
report not-found without side effects (spec section 4.B). -/
def FreePage (w : World) (offset : Nat) : World × status_t :=
  match listRemoveKey w.vmo.pages (ROUNDDOWN offset PAGE_SIZE) with
  | none => (w, status_t.ERR_NOT_FOUND)
  | some (pid, pages') =>
    ({ w with vmo := { w.vmo with pages := pages' },
              pmm := pmm_free [pid] w.pmm }, status_t.NO_ERROR)

/-- Broadcast UnmapVmoRangeLocked(start, len) to every region in the region
list, in list order (the for loop over region_list_). -/
def unmapRegions (w : World) (start len : Nat) : World :=
  { w with unmaps := w.unmaps ++ w.regions.map (fun r => (r, start, len)) }

/-- The page-freeing loop of DecommitRange: free each present page in
[s, e), counting PAGE_SIZE per freed page. -/
def decommitGo : Nat → World → Nat → Nat → Nat → World × Nat
  | 0, w, _, _, dec => (w, dec)
  | n + 1, w, s, e, dec =>
    if s < e then
      let r := FreePage w s
      decommitGo n r.1 (s + PAGE_SIZE) e
        (if r.2 = status_t.NO_ERROR then dec + PAGE_SIZE else dec)
    else (w, dec)

/-- The decommit freeing loop with its iteration bound. -/
def decommitLoop (w : World) (s e dec : Nat) : World × Nat :=
  decommitGo (pageSteps s e) w s e dec

/-- VmObjectPaged::DecommitRange. -/
def DecommitRange (w : World) (offset len : Nat) : status_t × Nat × World :=
  match TrimRange offset len w.vmo.size with
  | none => (status_t.ERR_OUT_OF_RANGE, 0, w)
  | some len' =>
    if len' = 0 then (status_t.NO_ERROR, 0, w)
    else
      let start := PAGE_ALIGN offset
      let e := ROUNDUP_PAGE_SIZE (offset + len')
      let w1 := unmapRegions w start (e - start)
      let r := decommitLoop w1 start e 0
      (status_t.NO_ERROR, r.2, r.1)

/-- The page-freeing loop of Resize, which ignores the per-page status. -/
def freeGo : Nat → World → Nat → Nat → World
  | 0, w, _, _ => w
  | n + 1, w, s, e => if s < e then freeGo n (FreePage w s).1 (s + PAGE_SIZE) e else w

/-- The resize freeing loop with its iteration bound. -/
def freeLoop (w : World) (s e : Nat) : World :=
  freeGo (pageSteps s e) w s e

/-- VmObjectPaged::Resize. -/
def Resize (w : World) (s : Nat) : status_t × World :=
  if s > MAX_SIZE then (status_t.ERR_OUT_OF_RANGE, w)
  else
    let w' :=
      if s < w.vmo.size then
        let start := ROUNDUP_PAGE_SIZE s
        let e := ROUNDUP_PAGE_SIZE w.vmo.size
        if 0 < e - start then freeLoop (unmapRegions w start (e - start)) start e
        else w
      else w
    (status_t.NO_ERROR, { w' with vmo := { w'.vmo with size := s } })

/-- The copy loop of VmObjectPaged::ReadWriteInternal, generic over the
copy routine exactly as the C++ template is: the routine receives the page,
the in-page offset, the buffer offset and the chunk length, and may update
the world (physical memory) and the external buffer. -/
def rwGo (E : Type)
    (copyfunc : Nat → Nat → Nat → Nat → World → E → status_t × World × E) :
    Nat → World → E → Nat → Nat → Nat → Nat → status_t × Nat × World × E
  | 0, w, ext, _, _, _, copied => (status_t.NO_ERROR, copied, w, ext)
  | n + 1, w, ext, offset, len, dest, copied =>
    if 0 < len then
      let page_offset := offset % PAGE_SIZE
      let tocopy := min (PAGE_SIZE - page_offset) len
      let fr := FaultPageLocked w offset
      match fr.1 with
      | none => (status_t.ERR_NO_MEMORY, copied, fr.2, ext)
      | some pid =>
        let cr := copyfunc pid page_offset dest tocopy fr.2 ext
        if cr.1 = status_t.NO_ERROR then
          rwGo E copyfunc n cr.2.1 cr.2.2 (offset + tocopy) (len - tocopy)
            (dest + tocopy) (copied + tocopy)
        else (cr.1, copied, cr.2.1, cr.2.2)
    else (status_t.NO_ERROR, copied, w, ext)

/-- The copy loop with its iteration bound (each iteration copies at least
one byte). -/
def rwLoop (E : Type)
    (copyfunc : Nat → Nat → Nat → Nat → World → E → status_t × World × E)
    (w : World) (ext : E) (offset len dest copied : Nat) (write : Bool) :
    status_t × Nat × World × E :=
  rwGo E copyfunc len w ext offset len dest copied

/-- VmObjectPaged::ReadWriteInternal: trim the range, then walk it by
pages, faulting each page in and applying the copy routine.  Returns the
status, the value left in *bytes_copied, the world and the buffer. -/
def ReadWriteInternal (E : Type)
    (copyfunc : Nat → Nat → Nat → Nat → World → E → status_t × World × E)
    (w : World) (ext : E) (offset len : Nat) (write : Bool) :
    status_t × Nat × World × E :=
  match TrimRange offset len w.vmo.size with
  | none => (status_t.ERR_OUT_OF_RANGE, 0, w, ext)
  | some len' =>
    if len' = 0 then (status_t.NO_ERROR, 0, w, ext)
    else rwLoop E copyfunc w ext offset len' 0 0 write

/-- The read routine of VmObjectPaged::Read: memcpy from the page into the
caller's buffer at the destination offset. -/
def read_routine (pid page_offset dest tocopy : Nat) (w : World) (out : List Nat) :
    status_t × World × List Nat :=
  (status_t.NO_ERROR, w, listWriteAt out dest (memBytes w.mem pid page_offset tocopy))

/-- The write routine of VmObjectPaged::Write: memcpy from the caller's
buffer at the source offset into the page. -/
def write_routine (pid page_offset dest tocopy : Nat) (w : World) (buf : List Nat) :
    status_t × World × List Nat :=
  let bytes := (List.range tocopy).map (fun i => buf.getD (dest + i) 0)
  (status_t.NO_ERROR, { w with mem := memWriteBytes w.mem pid page_offset bytes }, buf)

/-- VmObjectPaged::Read: validate the pointer as kernel-resident up front
(returning before *bytes_read is touched), then ReadWriteInternal with the
plain-memcpy read routine.  copied0 is the value in the caller's counter
before the call. -/
def Read (w : World) (ptrIsKernel : Bool) (out : List Nat)
    (offset len copied0 : Nat) : status_t × Nat × World × List Nat :=
  if !ptrIsKernel then (status_t.ERR_INVALID_ARGS, copied0, w, out)
  else ReadWriteInternal (List Nat) read_routine w out offset len false

/-- VmObjectPaged::Write: validate the pointer as kernel-resident up front,
then ReadWriteInternal with the plain-memcpy write routine. -/
def Write (w : World) (ptrIsKernel : Bool) (buf : List Nat)
    (offset len copied0 : Nat) : status_t × Nat × World × List Nat :=
  if !ptrIsKernel then (status_t.ERR_INVALID_ARGS, copied0, w, buf)
  else ReadWriteInternal (List Nat) write_routine w buf offset len true

/-- VmObjectPaged::ReadUser: validate the pointer as user-resident up
front, then the same flow with the user-copy routine (modelled as the
plain copy; user-fault errors of the copy primitive are surfaced verbatim
by the source and are outside this model). -/
def ReadUser (w : World) (ptrIsUser : Bool) (out : List Nat)
    (offset len copied0 : Nat) : status_t × Nat × World × List Nat :=
  if !ptrIsUser then (status_t.ERR_INVALID_ARGS, copied0, w, out)
  else ReadWriteInternal (List Nat) read_routine w out offset len false

/-- VmObjectPaged::WriteUser: validate the pointer as user-resident up
front, then the same flow with the user-copy write routine. -/
def WriteUser (w : World) (ptrIsUser : Bool) (buf : List Nat)
    (offset len copied0 : Nat) : status_t × Nat × World × List Nat :=
  if !ptrIsUser then (status_t.ERR_INVALID_ARGS, copied0, w, buf)
  else ReadWriteInternal (List Nat) write_routine w buf offset len true

/-- The query loop of VmObjectPaged::Lookup: stop with no-memory at the
first absent page, else append the physical address to the output table. -/
def lookupGo (v : Vmo) : Nat → Nat → Nat → List Nat → status_t × List Nat
  | 0, _, _, acc => (status_t.NO_ERROR, acc)
  | n + 1, o, e, acc =>
    if o < e then
      match GetPageLocked v o with
      | none => (status_t.ERR_NO_MEMORY, acc)
      | some pid => lookupGo v n (o + PAGE_SIZE) e (acc ++ [vm_page_to_paddr pid])
    else (status_t.NO_ERROR, acc)

/-- The query loop with its iteration bound. -/
def lookupLoop (v : Vmo) (o e : Nat) (acc : List Nat) : status_t × List Nat :=
  lookupGo v (pageSteps o e) o e acc

/-- Size in bytes of a paddr_t table entry. -/
def sizeof_paddr : Nat := 8

/-- VmObjectPaged::Lookup.  Returns the status, the (prefix of the) output
table written, and the world, which Lookup never changes. -/
def Lookup (w : World) (offset len buffer_size : Nat) :
    status_t × List Nat × World :=
  if len = 0 then (status_t.ERR_INVALID_ARGS, [], w)
  else if !(InRange offset len w.vmo.size) then (status_t.ERR_OUT_OF_RANGE, [], w)
  else
    let start_page_offset := ROUNDDOWN offset PAGE_SIZE
    let end_page_offset := ROUNDUP (offset + len) PAGE_SIZE
    let table_size := (end_page_offset - start_page_offset) / PAGE_SIZE * sizeof_paddr
    if table_size > buffer_size then (status_t.ERR_BUFFER_TOO_SMALL, [], w)
    else
      let r := lookupLoop w.vmo start_page_offset end_page_offset []
      (r.1, r.2, w)

/-- The cache-op kinds (CacheOpType in vm_object.h), numbered for the
trace. -/
def cacheOpInvalidate : Nat := 0

/-- Clean kind. -/
def cacheOpClean : Nat := 1

/-- CleanInvalidate kind. -/
def cacheOpCleanInvalidate : Nat := 2

/-- Sync kind. -/
def cacheOpSync : Nat := 3

/-- The sub-range loop of VmObjectPaged::CacheOp: each sub-range is clipped
to the end of its page and to the end of the whole range; when the page is
present the architectural primitive is invoked (recorded in the trace with
its kernel-virtual address and length), and absent pages are skipped. -/
def cacheGo (t : Nat) : Nat → World → Nat → Nat → World
  | 0, w, _, _ => w
  | n + 1, w, o, e =>
    if o < e then
      let page_end_offset := ROUNDUP (o + 1) PAGE_SIZE
      let op_end_offset := min page_end_offset e
      let cache_op_len := op_end_offset - o
      let page_offset := o % PAGE_SIZE
      let w' :=
        match GetPageLocked w.vmo o with
        | some pid =>
          { w with cacheOps := w.cacheOps ++
              [(t, paddr_to_kvaddr (vm_page_to_paddr pid) + page_offset, cache_op_len)] }
        | none => w
      cacheGo t n w' (o + cache_op_len) e
    else w

/-- The sub-range loop with its iteration bound (every sub-range ends at a
page boundary or at e, so the loop takes at most one step per spanned
page plus one for an unaligned head). -/
def cacheLoop (w : World) (t : Nat) (o e : Nat) : World :=
  cacheGo t (pageSteps o e + 1) w o e

/-- VmObjectPaged::CacheOp. -/
def CacheOp (w : World) (offset len : Nat) (t : Nat) : status_t × World :=
  if len = 0 then (status_t.ERR_INVALID_ARGS, w)
  else if !(InRange offset len w.vmo.size) then (status_t.ERR_OUT_OF_RANGE, w)
  else (status_t.NO_ERROR, cacheLoop w t offset (offset + len))

/-- VmObjectPaged::InvalidateCache. -/
def InvalidateCache (w : World) (offset len : Nat) : status_t × World :=
  CacheOp w offset len cacheOpInvalidate

/-- VmObjectPaged::CleanCache. -/
def CleanCache (w : World) (offset len : Nat) : status_t × World :=
  CacheOp w offset len cacheOpClean

/-- VmObjectPaged::CleanInvalidateCache. -/
def CleanInvalidateCache (w : World) (offset len : Nat) : status_t × World :=
  CacheOp w offset len cacheOpCleanInvalidate

/-- VmObjectPaged::SyncCache. -/
def SyncCache (w : World) (offset len : Nat) : status_t × World :=
  CacheOp w offset len cacheOpSync

/-!  Specification-side definitions used to state the claims. -/

/-- The page-list invariant of spec section 3: offsets are page-aligned and
below round_up_page(size); together with invariant 2 (no two entries share
an offset), which the preservation proofs also need. -/
def pagesWF (v : Vmo) : Prop :=
  (v.pages.map Prod.fst).Nodup ∧
  ∀ x ∈ v.pages, x.1 % PAGE_SIZE = 0 ∧ x.1 < ROUNDUP_PAGE_SIZE v.size

instance (v : Vmo) : Decidable (pagesWF v) := by
  unfold pagesWF; infer_instance

/-- Well-formedness of the allocator and page ownership (spec sections 3
and 5): the free list holds distinct frames, no two page-list entries share
a page, and no owned page is simultaneously in the free list. -/
def wfWorld (w : World) : Prop :=
  w.pmm.free.Nodup ∧ (w.vmo.pages.map Prod.snd).Nodup ∧
  ∀ x ∈ w.vmo.pages, x.2 ∉ w.pmm.free

instance (w : World) : Decidable (wfWorld w) := by
  unfold wfWorld; infer_instance

/-- The byte stored in the VMO at a byte offset, when the covering page is
present. -/
def vmoByte (w : World) (o : Nat) : Option Nat :=
  (pageListGet w.vmo.pages o).map (fun pid => w.mem pid (o % PAGE_SIZE))

/-- Number of present pages at the page-stepped offsets in [s, e). -/
def presentGo (pages : List (Nat × Nat)) : Nat → Nat → Nat → Nat
  | 0, _, _ => 0
  | n + 1, s, e =>
    if s < e then
      (if (pageListGet pages s).isSome then 1 else 0) + presentGo pages n (s + PAGE_SIZE) e
    else 0

/-- Number of present pages at the page-aligned offsets in [s, e). -/
def presentCount (pages : List (Nat × Nat)) (s e : Nat) : Nat :=
  presentGo pages (pageSteps s e) s e

/-- The offsets visited stepping one page at a time from s while below
e. -/
def pageOffsetsGo : Nat → Nat → Nat → List Nat
  | 0, _, _ => []
  | n + 1, s, e => if s < e then s :: pageOffsetsGo n (s + PAGE_SIZE) e else []

/-- The page-aligned offsets of the frames queried by Lookup over
[s, e). -/
def pageOffsets (s e : Nat) : List Nat :=
  pageOffsetsGo (pageSteps s e) s e

/-- The sub-ranges (start, length) that CacheOp iterates over: each is
clipped to the end of its page and to the end of the whole range. -/
def cacheChunksGo : Nat → Nat → Nat → List (Nat × Nat)
  | 0, _, _ => []
  | n + 1, o, e =>
    if o < e then
      let clen := min (ROUNDUP (o + 1) PAGE_SIZE) e - o
      (o, clen) :: cacheChunksGo n (o + clen) e
    else []

/-- The sub-range decomposition of [o, e) used by CacheOp. -/
def cacheChunks (o e : Nat) : List (Nat × Nat) :=
  cacheChunksGo (pageSteps o e + 1) o e

/-- The architectural cache calls a CacheOp over [o, e) must make: one per
sub-range whose page is present, at the kernel-virtual address of the page
plus the in-page offset, with the sub-range length; absent sub-ranges are
skipped. -/
def expectedCacheTrace (v : Vmo) (t o e : Nat) : List (Nat × Nat × Nat) :=
  (cacheChunks o e).filterMap (fun c =>
    (GetPageLocked v c.1).map (fun pid =>
      (t, paddr_to_kvaddr (vm_page_to_paddr pid) + c.1 % PAGE_SIZE, c.2)))

/-- The chunk walk of the read/write loop, counting the chunks whose
covering page is absent. -/
def walkMissingGo (pages : List (Nat × Nat)) : Nat → Nat → Nat → Nat
  | 0, _, _ => 0
  | n + 1, offset, len =>
    if 0 < len then
      let tocopy := min (PAGE_SIZE - offset % PAGE_SIZE) len
      (if (pageListGet pages offset).isSome then 0 else 1) +
        walkMissingGo pages n (offset + tocopy) (len - tocopy)
    else 0

/-- Number of pages the read/write walk over [offset, offset+len) must
fault in: one per chunk whose covering page is absent. -/
def walkMissing (pages : List (Nat × Nat)) (offset len : Nat) : Nat :=
  walkMissingGo pages len offset len

/-- The chunk walk of the read/write loop, summing the chunk lengths up to
the first chunk whose page is absent with the allocator exhausted. -/
def faultableGo (pages : List (Nat × Nat)) : Nat → Nat → Nat → Nat → Nat
  | 0, _, _, _ => 0
  | n + 1, avail, offset, len =>
    if 0 < len then
      let tocopy := min (PAGE_SIZE - offset % PAGE_SIZE) len
      if (pageListGet pages offset).isSome then
        tocopy + faultableGo pages n avail (offset + tocopy) (len - tocopy)
      else
        match avail with
        | 0 => 0
        | a + 1 => tocopy + faultableGo pages n a (offset + tocopy) (len - tocopy)
    else 0

/-- Number of leading bytes of the walk over [offset, offset+len) whose
pages the allocator, holding avail free pages, can provide: the byte count
up to (exclusive) the first chunk whose page is absent when the allocator
is exhausted. -/
def faultableBytes (pages : List (Nat × Nat)) (avail offset len : Nat) : Nat :=
  faultableGo pages len avail offset len

/-- The public operations of the VMO core, with their arguments (spec
section 4.D); used to state invariant preservation over every operation. -/
inductive Op where
  | addPage (pid offset : Nat)
  | resize (s : Nat)
  | commitRange (offset len : Nat)
  | commitRangeContiguous (offset len : Nat)
  | decommitRange (offset len : Nat)
  | read (ptrIsKernel : Bool) (out : List Nat) (offset len copied0 : Nat)
  | write (ptrIsKernel : Bool) (buf : List Nat) (offset len copied0 : Nat)
  | readUser (ptrIsUser : Bool) (out : List Nat) (offset len copied0 : Nat)
  | writeUser (ptrIsUser : Bool) (buf : List Nat) (offset len copied0 : Nat)
  | lookup (offset len buffer_size : Nat)
  | cacheOp (offset len t : Nat)

/-- The world after one public operation.  CommitRangeContiguous panics on
a partially committed range; the panic halts the kernel, so the state after
it is the state at the panic, never observed outside the lock — rendered as
the unchanged world. -/
def step (w : World) : Op → World
  | Op.addPage pid offset => (AddPage w pid offset).2
  | Op.resize s => (Resize w s).2
  | Op.commitRange offset len => (CommitRange w offset len).2.2
  | Op.commitRangeContiguous offset len =>
    match CommitRangeContiguous w offset len with
    | none => w
    | some r => r.2.2
  | Op.decommitRange offset len => (DecommitRange w offset len).2.2
  | Op.read k out offset len c0 => (Read w k out offset len c0).2.2.1
  | Op.write k buf offset len c0 => (Write w k buf offset len c0).2.2.1
  | Op.readUser u out offset len c0 => (ReadUser w u out offset len c0).2.2.1
  | Op.writeUser u buf offset len c0 => (WriteUser w u buf offset len c0).2.2.1
  | Op.lookup offset len bs => (Lookup w offset len bs).2.2
  | Op.cacheOp offset len t => (CacheOp w offset len t).2

/-!  Concrete worlds used by the witnesses. -/

/-- A world with an 8 KiB empty VMO, four free pages, and two regions. -/
def sampleW : World :=
  { vmo := { size := 8192, pages := [] },
    pmm := { free := [10, 11, 12, 13], requests := [] },
    mem := fun _ _ => 7, regions := [100, 101], unmaps := [], cacheOps := [] }

/-- A world with a 12 KiB VMO whose middle page is committed, one free
page, and one region. -/
def sampleW2 : World :=
  { vmo := { size := 12288, pages := [(4096, 21)] },
    pmm := { free := [22], requests := [] },
    mem := fun _ _ => 3, regions := [55], unmaps := [], cacheOps := [] }

/-- A world with an 8 KiB uncommitted VMO and a single free page, so a
write spanning two pages exhausts the allocator mid-walk. -/
def sampleW4 : World :=
  { vmo := { size := 8192, pages := [] },
    pmm := { free := [20], requests := [] },
    mem := fun _ _ => 0, regions := [], unmaps := [], cacheOps := [] }

/-- A world with a fully committed 8 KiB VMO and two regions. -/
def sampleW3 : World :=
  { vmo := { size := 8192, pages := [(0, 31), (4096, 32)] },
    pmm := { free := [33], requests := [] },
    mem := fun _ _ => 0, regions := [100, 101], unmaps := [], cacheOps := [] }

/-!  Basic lemmas about the helpers. -/

theorem PAGE_SIZE_pos : 0 < PAGE_SIZE := by decide

theorem trimRange_in (offset len size : Nat) (h : offset + len ≤ size) :
    TrimRange offset len size = some len := by
  unfold TrimRange
  rw [if_neg (by omega)]
  congr 1
  omega

theorem listGetKey_nil (k : Nat) : listGetKey [] k = none := rfl

theorem listGetKey_cons (x : Nat × Nat) (rest : List (Nat × Nat)) (k : Nat) :
    listGetKey (x :: rest) k = if x.1 = k then some x.2 else listGetKey rest k := rfl

/-!  Claim C1 — CommitRange is atomic on allocation failure. -/

/-- C1: for every VMO state and every in-range (offset, len) whose page
walk has N missing pages, if the allocator holds fewer than N free pages
then CommitRange returns no_memory, the partial batch is returned so the
allocator free list is exactly as before, no page is installed, the
committed counter is 0, and the page list, size, memory and traces are
exactly as before the call (only the ghost request trace records the
request of N pages). -/
theorem commitRange_allocFailure_atomic (w : World) (offset len : Nat)
    (hlen : 0 < len) (hin : offset + len ≤ w.vmo.size)
    (hfail : w.pmm.free.length <
      missingCount w.vmo.pages offset (ROUNDUP_PAGE_SIZE (offset + len))) :
    CommitRange w offset len =
      (status_t.ERR_NO_MEMORY, 0,
       { w with pmm := { free := w.pmm.free, requests := w.pmm.requests ++
           [missingCount w.vmo.pages offset (ROUNDUP_PAGE_SIZE (offset + len))] } }) := by
  have htrim : TrimRange offset len w.vmo.size = some len := trimRange_in _ _ _ hin
  simp only [CommitRange, htrim, pmm_alloc_pages, pmm_free]
  rw [if_neg (by omega : ¬ len = 0)]
  rw [if_neg (by omega : ¬ missingCount w.vmo.pages offset (ROUNDUP_PAGE_SIZE (offset + len)) = 0)]
  rw [if_pos (by simp [List.length_take]; omega)]
  rw [List.drop_of_length_le (by omega), List.take_of_length_le (by omega), List.nil_append]

/-- Witness for C1 at a concrete world: a 12 KiB VMO with one committed
page and a single free page, committing the whole object (two missing
pages). -/
theorem commitRange_allocFailure_atomic_witness :
    (0 < 12288 ∧ 0 + 12288 ≤ sampleW2.vmo.size ∧
      sampleW2.pmm.free.length <
        missingCount sampleW2.vmo.pages 0 (ROUNDUP_PAGE_SIZE (0 + 12288))) ∧
    CommitRange sampleW2 0 12288 =
      (status_t.ERR_NO_MEMORY, 0,
       { sampleW2 with pmm := Pmm.mk sampleW2.pmm.free (sampleW2.pmm.requests ++ [missingCount sampleW2.vmo.pages 0 (ROUNDUP_PAGE_SIZE (0 + 12288))]) }) :=
  ⟨⟨by decide, by decide, by decide⟩,
   commitRange_allocFailure_atomic sampleW2 0 12288 (by decide) (by decide) (by decide)⟩

/-!  Claim C10 — wrong-address-space pointers fail before anything else. -/

/-- C10: Read and Write called with a non-kernel pointer (and
ReadUser/WriteUser with a non-user pointer) return invalid_args with the
world untouched — no page faulted in, no VMO state changed — and with the
caller's byte counter left at its prior value, while the other failure
paths (here out-of-range) first set the counter to 0. -/
theorem readWrite_badPointer_leaves_counter (w : World) (out buf : List Nat)
    (offset len copied0 : Nat) :
    Read w false out offset len copied0 = (status_t.ERR_INVALID_ARGS, copied0, w, out) ∧
    Write w false buf offset len copied0 = (status_t.ERR_INVALID_ARGS, copied0, w, buf) ∧
    ReadUser w false out offset len copied0 = (status_t.ERR_INVALID_ARGS, copied0, w, out) ∧
    WriteUser w false buf offset len copied0 = (status_t.ERR_INVALID_ARGS, copied0, w, buf) ∧
    (w.vmo.size < offset →
      Read w true out offset len copied0 = (status_t.ERR_OUT_OF_RANGE, 0, w, out) ∧
      Write w true buf offset len copied0 = (status_t.ERR_OUT_OF_RANGE, 0, w, buf)) := by
  refine ⟨rfl, rfl, rfl, rfl, fun h => ⟨?_, ?_⟩⟩ <;>
    simp [Read, Write, ReadWriteInternal, TrimRange, if_pos h]

/-- Witness for C10: the out-of-range contrast conjunct at a concrete
world, showing the counter is reset to 0 there while the bad-pointer path
(stated without hypotheses) preserves 77. -/
theorem readWrite_badPointer_leaves_counter_witness :
    sampleW.vmo.size < 9000 ∧
    Read sampleW true [5] 9000 4 77 = (status_t.ERR_OUT_OF_RANGE, 0, sampleW, [5]) :=
  ⟨by decide,
   ((readWrite_badPointer_leaves_counter sampleW [5] [5] 9000 4 77).2.2.2.2 (by decide)).1⟩

/-!  Claim C9 — CacheOp skips holes. -/

theorem cacheGo_trace (t : Nat) : ∀ (n : Nat) (w : World) (o e : Nat),
    cacheGo t n w o e =
      { w with cacheOps := w.cacheOps ++
          (cacheChunksGo n o e).filterMap (fun c =>
            (GetPageLocked w.vmo c.1).map (fun pid =>
              (t, paddr_to_kvaddr (vm_page_to_paddr pid) + c.1 % PAGE_SIZE, c.2))) } := by
  intro n
  induction n with
  | zero => intro w o e; simp [cacheGo, cacheChunksGo]
  | succ n ih =>
    intro w o e
    by_cases h : o < e
    · simp only [cacheGo, cacheChunksGo, if_pos h]
      cases hg : GetPageLocked w.vmo o with
      | none =>
        rw [ih]
        simp [hg, List.append_assoc]
      | some pid =>
        rw [ih]
        simp [hg, List.append_assoc]
    · simp [cacheGo, cacheChunksGo, if_neg h]

/-- C9: for every in-range non-empty (offset, len) and every op kind,
CacheOp returns ok having invoked the architectural primitive exactly once
per sub-range whose page is present — at the kernel-virtual address of the
page plus the in-page offset, with the clipped sub-range length — skipping
absent sub-ranges, changing nothing else (no fault-in); len == 0 is
rejected with invalid_args and an out-of-range span with out_of_range. -/
theorem cacheOp_skips_holes (w : World) (offset len t : Nat) :
    (0 < len → offset + len ≤ w.vmo.size →
      CacheOp w offset len t =
        (status_t.NO_ERROR,
         { w with cacheOps := w.cacheOps ++
             expectedCacheTrace w.vmo t offset (offset + len) })) ∧
    CacheOp w offset 0 t = (status_t.ERR_INVALID_ARGS, w) ∧
    (0 < len → w.vmo.size < offset + len →
      CacheOp w offset len t = (status_t.ERR_OUT_OF_RANGE, w)) := by
  refine ⟨fun hlen hin => ?_, rfl, fun hlen hout => ?_⟩
  · have hr : InRange offset len w.vmo.size = true := by
      simp [InRange]; omega
    simp only [CacheOp, if_neg (by omega : ¬ len = 0), hr, Bool.not_true,
      Bool.false_eq_true, if_false, cacheLoop]
    rw [cacheGo_trace]
    rfl
  · have hr : InRange offset len w.vmo.size = false := by
      simp [InRange]; omega
    simp [CacheOp, if_neg (by omega : ¬ len = 0), hr]

/-- Witness for C9 at a concrete world: a range mixing an absent head
page, a present middle page and an absent tail page produces exactly one
architectural call, over the present page. -/
theorem cacheOp_skips_holes_witness :
    (0 < 5000 ∧ 4000 + 5000 ≤ sampleW2.vmo.size) ∧
    CacheOp sampleW2 4000 5000 1 =
      (status_t.NO_ERROR,
       { sampleW2 with cacheOps := sampleW2.cacheOps ++
           expectedCacheTrace sampleW2.vmo 1 4000 (4000 + 5000) }) :=
  ⟨⟨by decide, by decide⟩,
   (cacheOp_skips_holes sampleW2 4000 5000 1).1 (by decide) (by decide)⟩

/-!  Claim C8 — Lookup is non-faulting. -/

theorem lookupGo_firstAbsent (v : Vmo) : ∀ (n o e : Nat) (acc : List Nat) (oa : Nat),
    (pageOffsetsGo n o e).find? (fun x => (GetPageLocked v x).isNone) = some oa →
    lookupGo v n o e acc =
      (status_t.ERR_NO_MEMORY,
       acc ++ ((pageOffsetsGo n o e).takeWhile (fun x => (GetPageLocked v x).isSome)).map
         (fun x => vm_page_to_paddr ((GetPageLocked v x).getD 0))) := by
  intro n
  induction n with
  | zero => intro o e acc oa hf; simp [pageOffsetsGo] at hf
  | succ n ih =>
    intro o e acc oa hf
    by_cases h : o < e
    · rw [pageOffsetsGo, if_pos h] at hf
      cases hg : GetPageLocked v o with
      | none =>
        simp only [lookupGo, if_pos h, hg]
        rw [pageOffsetsGo, if_pos h]
        rw [List.takeWhile_cons]
        simp [hg]
      | some pid =>
        rw [List.find?_cons] at hf
        rw [hg] at hf
        simp only [Option.isNone_some] at hf
        simp only [lookupGo, if_pos h, hg]
        rw [ih (o + PAGE_SIZE) e (acc ++ [vm_page_to_paddr pid]) oa hf]
        rw [pageOffsetsGo, if_pos h]
        rw [List.takeWhile_cons]
        simp [hg]
    · rw [pageOffsetsGo, if_neg h] at hf
      simp at hf

/-- C8: for every VMO and valid (offset, len) whose page range contains an
absent page, Lookup returns no_memory at the first absent page (the output
table holds exactly the frames before it), the world — in particular the
page list — is returned unchanged, with nothing allocated or installed,
and GetPage at the first absent offset still reports it absent. -/
theorem lookup_nonFaulting (w : World) (offset len buffer_size oa : Nat)
    (hlen : 0 < len) (hin : offset + len ≤ w.vmo.size)
    (hbuf : (ROUNDUP (offset + len) PAGE_SIZE - ROUNDDOWN offset PAGE_SIZE) / PAGE_SIZE *
      sizeof_paddr ≤ buffer_size)
    (hfind : (pageOffsets (ROUNDDOWN offset PAGE_SIZE)
        (ROUNDUP (offset + len) PAGE_SIZE)).find?
        (fun x => (GetPageLocked w.vmo x).isNone) = some oa) :
    Lookup w offset len buffer_size =
      (status_t.ERR_NO_MEMORY,
       ((pageOffsets (ROUNDDOWN offset PAGE_SIZE)
           (ROUNDUP (offset + len) PAGE_SIZE)).takeWhile
          (fun x => (GetPageLocked w.vmo x).isSome)).map
         (fun x => vm_page_to_paddr ((GetPageLocked w.vmo x).getD 0)), w) ∧
    GetPageLocked w.vmo oa = none := by
  constructor
  · have hr : InRange offset len w.vmo.size = true := by
      simp [InRange]; omega
    simp only [Lookup, if_neg (by omega : ¬ len = 0), hr, Bool.not_true,
      Bool.false_eq_true, if_false, lookupLoop]
    rw [if_neg (by omega)]
    rw [lookupGo_firstAbsent w.vmo _ _ _ [] oa hfind]
    rw [List.nil_append]
    rfl
  · have := List.find?_some hfind
    simpa [Option.isNone_iff_eq_none] using this

/-- Witness for C8 at a concrete world: page 0 of the queried range is
absent, so Lookup reports no_memory with an empty table and the world
unchanged. -/
theorem lookup_nonFaulting_witness :
    (0 < 8192 ∧ 0 + 8192 ≤ sampleW2.vmo.size) ∧
    Lookup sampleW2 0 8192 16 =
      (status_t.ERR_NO_MEMORY,
       ((pageOffsets (ROUNDDOWN 0 PAGE_SIZE) (ROUNDUP (0 + 8192) PAGE_SIZE)).takeWhile
          (fun x => (GetPageLocked sampleW2.vmo x).isSome)).map
         (fun x => vm_page_to_paddr ((GetPageLocked sampleW2.vmo x).getD 0)), sampleW2) ∧
    GetPageLocked sampleW2.vmo 0 = none :=
  ⟨⟨by decide, by decide⟩,
   lookup_nonFaulting sampleW2 0 8192 16 0 (by decide) (by decide) (by decide) (by decide)⟩

/-!  Lemmas about key lookup and removal in the page list. -/

theorem listGetKey_eq_none_iff : ∀ (pages : List (Nat × Nat)) (k : Nat),
    listGetKey pages k = none ↔ ∀ x ∈ pages, x.1 ≠ k := by
  intro pages
  induction pages with
  | nil => intro k; simp [listGetKey]
  | cons x rest ih =>
    intro k
    by_cases h : x.1 = k <;> simp [listGetKey_cons, h, ih]

theorem listRemoveKey_some_getKey : ∀ (pages : List (Nat × Nat)) (k pid : Nat)
    (rest : List (Nat × Nat)), listRemoveKey pages k = some (pid, rest) →
    listGetKey pages k = some pid := by
  intro pages
  induction pages with
  | nil => intro k pid rest h; simp [listRemoveKey] at h
  | cons x tail ih =>
    intro k pid rest h
    by_cases hx : x.1 = k
    · simp [listRemoveKey, hx] at h
      simp [listGetKey_cons, hx, h.1]
    · simp only [listRemoveKey, if_neg hx] at h
      cases hr : listRemoveKey tail k with
      | none => rw [hr] at h; cases h
      | some pr =>
        rw [hr] at h
        simp only [Option.some.injEq, Prod.mk.injEq] at h
        simp [listGetKey_cons, hx]
        have := ih k pr.1 pr.2 (by rw [hr])
        rw [this, h.1]

theorem listRemoveKey_none_getKey : ∀ (pages : List (Nat × Nat)) (k : Nat),
    listRemoveKey pages k = none → listGetKey pages k = none := by
  intro pages
  induction pages with
  | nil => intro k h; simp [listGetKey]
  | cons x tail ih =>
    intro k h
    by_cases hx : x.1 = k
    · simp [listRemoveKey, hx] at h
    · simp only [listRemoveKey, if_neg hx] at h
      cases hr : listRemoveKey tail k with
      | none => simp [listGetKey_cons, hx, ih k hr]
      | some pr => rw [hr] at h; cases h

theorem listRemoveKey_sublist : ∀ (pages : List (Nat × Nat)) (k pid : Nat)
    (rest : List (Nat × Nat)), listRemoveKey pages k = some (pid, rest) →
    rest.Sublist pages := by
  intro pages
  induction pages with
  | nil => intro k pid rest h; simp [listRemoveKey] at h
  | cons x tail ih =>
    intro k pid rest h
    by_cases hx : x.1 = k
    · simp [listRemoveKey, hx] at h
      rw [← h.2]
      exact List.sublist_cons_self x tail
    · simp only [listRemoveKey, if_neg hx] at h
      cases hr : listRemoveKey tail k with
      | none => rw [hr] at h; cases h
      | some pr =>
        rw [hr] at h
        simp only [Option.some.injEq, Prod.mk.injEq] at h
        rw [← h.2]
        exact List.Sublist.cons₂ x (ih k pr.1 pr.2 (by rw [hr]))

theorem listRemoveKey_frame : ∀ (pages : List (Nat × Nat)) (k pid : Nat)
    (rest : List (Nat × Nat)), listRemoveKey pages k = some (pid, rest) →
    ∀ k', k' ≠ k → listGetKey rest k' = listGetKey pages k' := by
  intro pages
  induction pages with
  | nil => intro k pid rest h; simp [listRemoveKey] at h
  | cons x tail ih =>
    intro k pid rest h k' hk
    by_cases hx : x.1 = k
    · simp [listRemoveKey, hx] at h
      rw [← h.2]
      rw [listGetKey_cons, if_neg (by omega : ¬ x.1 = k')]
    · simp only [listRemoveKey, if_neg hx] at h
      cases hr : listRemoveKey tail k with
      | none => rw [hr] at h; cases h
      | some pr =>
        rw [hr] at h
        simp only [Option.some.injEq, Prod.mk.injEq] at h
        rw [← h.2]
        rw [listGetKey_cons, listGetKey_cons]
        by_cases hx' : x.1 = k'
        · simp [hx']
        · simp only [if_neg hx']
          exact ih k pr.1 pr.2 (by rw [hr]) k' hk

theorem listRemoveKey_self : ∀ (pages : List (Nat × Nat)) (k pid : Nat)
    (rest : List (Nat × Nat)), (pages.map Prod.fst).Nodup →
    listRemoveKey pages k = some (pid, rest) → listGetKey rest k = none := by
  intro pages
  induction pages with
  | nil => intro k pid rest _ h; simp [listRemoveKey] at h
  | cons x tail ih =>
    intro k pid rest hnd h
    simp only [List.map_cons, List.nodup_cons] at hnd
    by_cases hx : x.1 = k
    · simp [listRemoveKey, hx] at h
      rw [← h.2]
      rw [listGetKey_eq_none_iff]
      intro y hy
      have : y.1 ∈ tail.map Prod.fst := List.mem_map_of_mem Prod.fst hy
      intro hyk
      rw [← hx] at hyk
      exact hnd.1 (by rw [hyk] at this; exact this)
    · simp only [listRemoveKey, if_neg hx] at h
      cases hr : listRemoveKey tail k with
      | none => rw [hr] at h; cases h
      | some pr =>
        rw [hr] at h
        simp only [Option.some.injEq, Prod.mk.injEq] at h
        rw [← h.2]
        rw [listGetKey_cons, if_neg (by omega : ¬ x.1 = k)]
        exact ih k pr.1 pr.2 hnd.2 (by rw [hr])

theorem rounddown_self_of_aligned (s : Nat) (h : s % PAGE_SIZE = 0) :
    ROUNDDOWN s PAGE_SIZE = s := by
  simp only [ROUNDDOWN, PAGE_SIZE] at *
  omega

theorem roundup_page_aligned (a : Nat) : ROUNDUP_PAGE_SIZE a % PAGE_SIZE = 0 := by
  simp only [ROUNDUP_PAGE_SIZE, ROUNDUP, PAGE_SIZE]
  omega

theorem page_align_aligned (a : Nat) : PAGE_ALIGN a % PAGE_SIZE = 0 := by
  simp only [PAGE_ALIGN, ROUNDDOWN, PAGE_SIZE]
  omega

/-!  Claim C2 — Resize: shrink invalidation, pure-metadata grow, range check. -/

theorem freeGo_spec : ∀ (n : Nat) (w : World) (s e : Nat),
    s % PAGE_SIZE = 0 → (w.vmo.pages.map Prod.fst).Nodup →
    (freeGo n w s e).vmo.size = w.vmo.size ∧
    (freeGo n w s e).mem = w.mem ∧
    (freeGo n w s e).regions = w.regions ∧
    (freeGo n w s e).unmaps = w.unmaps ∧
    (freeGo n w s e).cacheOps = w.cacheOps ∧
    ((freeGo n w s e).vmo.pages.map Prod.fst).Nodup ∧
    ∀ x ∈ (freeGo n w s e).vmo.pages, x ∈ w.vmo.pages ∧
      (x.1 % PAGE_SIZE = 0 → ¬(s ≤ x.1 ∧ x.1 < e ∧ x.1 < s + n * PAGE_SIZE)) := by
  intro n
  induction n with
  | zero =>
    intro w s e hal hnd
    refine ⟨rfl, rfl, rfl, rfl, rfl, hnd, fun x hx => ⟨hx, fun _ => ?_⟩⟩
    simp only [PAGE_SIZE] at *
    omega
  | succ n ih =>
    intro w s e hal hnd
    by_cases h : s < e
    · have hrd : ROUNDDOWN s PAGE_SIZE = s := rounddown_self_of_aligned s hal
      have hal' : (s + PAGE_SIZE) % PAGE_SIZE = 0 := by
        simp only [PAGE_SIZE] at hal ⊢
        omega
      cases hr : listRemoveKey w.vmo.pages s with
      | none =>
        have hfp : (FreePage w s).1 = w := by simp [FreePage, hrd, hr]
        have hgk : listGetKey w.vmo.pages s = none := listRemoveKey_none_getKey _ _ hr
        simp only [freeGo, if_pos h, hfp]
        obtain ⟨h1, h2, h3, h4, h5, h6, h7⟩ := ih w (s + PAGE_SIZE) e hal' hnd
        refine ⟨h1, h2, h3, h4, h5, h6, fun x hx => ?_⟩
        obtain ⟨hmem, hexcl⟩ := h7 x hx
        refine ⟨hmem, fun halx => ?_⟩
        have hne : x.1 ≠ s := (listGetKey_eq_none_iff _ _).mp hgk x hmem
        have hex := hexcl halx
        simp only [PAGE_SIZE] at *
        omega
      | some pr =>
        have hfp : (FreePage w s).1 =
            { w with vmo := { w.vmo with pages := pr.2 },
                     pmm := pmm_free [pr.1] w.pmm } := by
          simp [FreePage, hrd, hr]
        have hsub : pr.2.Sublist w.vmo.pages :=
          listRemoveKey_sublist _ _ _ _ (by rw [hr])
        have hnd' : (pr.2.map Prod.fst).Nodup :=
          List.Nodup.sublist (List.Sublist.map Prod.fst hsub) hnd
        have hself : listGetKey pr.2 s = none :=
          listRemoveKey_self _ _ _ _ hnd (by rw [hr])
        simp only [freeGo, if_pos h, hfp]
        obtain ⟨h1, h2, h3, h4, h5, h6, h7⟩ :=
          ih { w with vmo := { w.vmo with pages := pr.2 },
                      pmm := pmm_free [pr.1] w.pmm } (s + PAGE_SIZE) e hal' hnd'
        refine ⟨h1, h2, h3, h4, h5, h6, fun x hx => ?_⟩
        obtain ⟨hmem, hexcl⟩ := h7 x hx
        refine ⟨hsub.subset hmem, fun halx => ?_⟩
        have hne : x.1 ≠ s := (listGetKey_eq_none_iff _ _).mp hself x hmem
        have hex := hexcl halx
        simp only [PAGE_SIZE] at *
        omega
    · simp only [freeGo, if_neg h]
      refine ⟨by trivial, by trivial, by trivial, by trivial, by trivial, hnd,
        fun x hx => ⟨hx, fun _ => ?_⟩⟩
      omega

/-- C2: Resize(s) with s < old_size and end = round_up_page(old_size)
above start = round_up_page(s) sends UnmapVmoRangeLocked(start, end-start)
to every region in the region set and afterwards no page remains at any
offset at or beyond start; Resize(s) with s at or above old_size changes
only the size field (same page list, same allocator — no page allocated);
and Resize fails with out_of_range exactly when s > MAX_SIZE. -/
theorem resize_spec (w : World) (s : Nat) (hwf : pagesWF w.vmo) :
    (s < w.vmo.size → s ≤ MAX_SIZE →
      (Resize w s).1 = status_t.NO_ERROR ∧
      (Resize w s).2.vmo.size = s ∧
      (ROUNDUP_PAGE_SIZE s < ROUNDUP_PAGE_SIZE w.vmo.size →
        (Resize w s).2.unmaps = w.unmaps ++ w.regions.map
          (fun r => (r, ROUNDUP_PAGE_SIZE s,
            ROUNDUP_PAGE_SIZE w.vmo.size - ROUNDUP_PAGE_SIZE s))) ∧
      (∀ x ∈ (Resize w s).2.vmo.pages, x.1 < ROUNDUP_PAGE_SIZE s)) ∧
    (w.vmo.size ≤ s → s ≤ MAX_SIZE →
      Resize w s = (status_t.NO_ERROR, { w with vmo := { w.vmo with size := s } })) ∧
    ((Resize w s).1 = status_t.ERR_OUT_OF_RANGE ↔ MAX_SIZE < s) := by
  refine ⟨fun hs hmax => ?_, fun hs hmax => ?_, ?_⟩
  · simp only [Resize, if_neg (by omega : ¬ s > MAX_SIZE), if_pos hs]
    by_cases hlen : 0 < ROUNDUP_PAGE_SIZE w.vmo.size - ROUNDUP_PAGE_SIZE s
    · rw [if_pos hlen]
      have hal : ROUNDUP_PAGE_SIZE s % PAGE_SIZE = 0 := roundup_page_aligned s
      have hnd : ((unmapRegions w (ROUNDUP_PAGE_SIZE s)
          (ROUNDUP_PAGE_SIZE w.vmo.size - ROUNDUP_PAGE_SIZE s)).vmo.pages.map
            Prod.fst).Nodup := hwf.1
      obtain ⟨h1, h2, h3, h4, h5, h6, h7⟩ :=
        freeGo_spec (pageSteps (ROUNDUP_PAGE_SIZE s) (ROUNDUP_PAGE_SIZE w.vmo.size))
          (unmapRegions w (ROUNDUP_PAGE_SIZE s)
            (ROUNDUP_PAGE_SIZE w.vmo.size - ROUNDUP_PAGE_SIZE s))
          (ROUNDUP_PAGE_SIZE s) (ROUNDUP_PAGE_SIZE w.vmo.size) hal hnd
      refine ⟨by trivial, by trivial, fun _ => ?_, fun x hx => ?_⟩
      · simpa [freeLoop, unmapRegions] using h4
      · obtain ⟨hmem, hexcl⟩ := h7 x (by simpa [freeLoop] using hx)
        have hx' : x ∈ w.vmo.pages := by simpa [unmapRegions] using hmem
        obtain ⟨hxa, hxb⟩ := hwf.2 x hx'
        have := hexcl hxa
        simp only [pageSteps, PAGE_SIZE] at *
        omega
    · rw [if_neg hlen]
      refine ⟨by trivial, by trivial, fun hc => by omega, fun x hx => ?_⟩
      obtain ⟨hxa, hxb⟩ := hwf.2 x hx
      omega
  · simp only [Resize, if_neg (by omega : ¬ s > MAX_SIZE), if_neg (by omega : ¬ s < w.vmo.size)]
  · constructor
    · intro h
      by_cases hc : s > MAX_SIZE
      · omega
      · simp only [Resize, if_neg hc] at h
        cases h
    · intro h
      simp [Resize, if_pos (by omega : s > MAX_SIZE)]

/-- Witness for C2 at a concrete world: shrinking the two-page VMO to one
page unmaps [4096, 8192) in both regions and leaves no page at or beyond
4096. -/
theorem resize_spec_witness :
    (pagesWF sampleW3.vmo ∧ 4096 < sampleW3.vmo.size ∧ 4096 ≤ MAX_SIZE) ∧
    (Resize sampleW3 4096).1 = status_t.NO_ERROR ∧
    (Resize sampleW3 4096).2.vmo.size = 4096 ∧
    (ROUNDUP_PAGE_SIZE 4096 < ROUNDUP_PAGE_SIZE sampleW3.vmo.size →
      (Resize sampleW3 4096).2.unmaps = sampleW3.unmaps ++ sampleW3.regions.map
        (fun r => (r, ROUNDUP_PAGE_SIZE 4096,
          ROUNDUP_PAGE_SIZE sampleW3.vmo.size - ROUNDUP_PAGE_SIZE 4096))) ∧
    (∀ x ∈ (Resize sampleW3 4096).2.vmo.pages, x.1 < ROUNDUP_PAGE_SIZE 4096) :=
  ⟨⟨by decide, by decide, by decide⟩,
   (resize_spec sampleW3 4096 (by decide)).1 (by decide) (by decide)⟩

/-!  Claim C5 — DecommitRange frees the present pages of the page-rounded
range, skipping absent ones, after unmapping it from every region. -/

theorem presentGo_congr : ∀ (n s e : Nat) (p1 p2 : List (Nat × Nat)),
    s % PAGE_SIZE = 0 →
    (∀ k, k % PAGE_SIZE = 0 → s ≤ k → listGetKey p1 k = listGetKey p2 k) →
    presentGo p1 n s e = presentGo p2 n s e := by
  intro n
  induction n with
  | zero => intro s e p1 p2 _ _; rfl
  | succ n ih =>
    intro s e p1 p2 hal hk
    simp only [presentGo]
    by_cases h : s < e
    · rw [if_pos h, if_pos h]
      have hrd : ROUNDDOWN s PAGE_SIZE = s := rounddown_self_of_aligned s hal
      have hhead : pageListGet p1 s = pageListGet p2 s := by
        simp only [pageListGet, hrd]
        exact hk s hal le_rfl
      rw [hhead]
      have hal' : (s + PAGE_SIZE) % PAGE_SIZE = 0 := by
        simp only [PAGE_SIZE] at hal ⊢
        omega
      rw [ih (s + PAGE_SIZE) e p1 p2 hal' (fun k hka hks => hk k hka (by omega))]
    · rw [if_neg h, if_neg h]

theorem decommitGo_spec : ∀ (n : Nat) (w : World) (s e dec : Nat),
    s % PAGE_SIZE = 0 → e ≤ s + n * PAGE_SIZE →
    (w.vmo.pages.map Prod.fst).Nodup →
    (decommitGo n w s e dec).1.vmo.size = w.vmo.size ∧
    (decommitGo n w s e dec).1.mem = w.mem ∧
    (decommitGo n w s e dec).1.regions = w.regions ∧
    (decommitGo n w s e dec).1.unmaps = w.unmaps ∧
    (decommitGo n w s e dec).1.cacheOps = w.cacheOps ∧
    ((decommitGo n w s e dec).1.vmo.pages.map Prod.fst).Nodup ∧
    (decommitGo n w s e dec).2 = dec + PAGE_SIZE * presentGo w.vmo.pages n s e ∧
    (∀ k, listGetKey (decommitGo n w s e dec).1.vmo.pages k =
      if s ≤ k ∧ k < e ∧ k % PAGE_SIZE = 0 then none
      else listGetKey w.vmo.pages k) := by
  intro n
  induction n with
  | zero =>
    intro w s e dec hal hfuel hnd
    refine ⟨rfl, rfl, rfl, rfl, rfl, hnd, by simp [decommitGo, presentGo], fun k => ?_⟩
    rw [if_neg (by simp only [PAGE_SIZE] at *; omega)]
    rfl
  | succ n ih =>
    intro w s e dec hal hfuel hnd
    by_cases h : s < e
    · have hrd : ROUNDDOWN s PAGE_SIZE = s := rounddown_self_of_aligned s hal
      have hal' : (s + PAGE_SIZE) % PAGE_SIZE = 0 := by
        simp only [PAGE_SIZE] at hal ⊢
        omega
      have hfuel' : e ≤ s + PAGE_SIZE + n * PAGE_SIZE := by
        simp only [PAGE_SIZE] at hfuel ⊢
        omega
      cases hr : listRemoveKey w.vmo.pages s with
      | none =>
        have hfp : FreePage w s = (w, status_t.ERR_NOT_FOUND) := by
          simp [FreePage, hrd, hr]
        have hgk : listGetKey w.vmo.pages s = none := listRemoveKey_none_getKey _ _ hr
        have hstep : decommitGo (n + 1) w s e dec = decommitGo n w (s + PAGE_SIZE) e dec := by
          simp [decommitGo, if_pos h, hfp]
        rw [hstep]
        obtain ⟨h1, h2, h3, h4, h5, h6, h7, h8⟩ := ih w (s + PAGE_SIZE) e dec hal' hfuel' hnd
        refine ⟨h1, h2, h3, h4, h5, h6, ?_, fun k => ?_⟩
        · rw [h7]
          simp only [presentGo, if_pos h, pageListGet, hrd, hgk]
          simp
        · rw [h8 k]
          by_cases hz : s + PAGE_SIZE ≤ k ∧ k < e ∧ k % PAGE_SIZE = 0

          · rw [if_pos hz, if_pos (by omega)]
          · by_cases hzb : s ≤ k ∧ k < e ∧ k % PAGE_SIZE = 0
            · have hks : k = s := by
                simp only [PAGE_SIZE] at *
                omega
              rw [if_neg hz, if_pos hzb, hks, hgk]
            · rw [if_neg hz, if_neg hzb]
      | some pr =>
        have hfp : FreePage w s =
            ({ w with vmo := { w.vmo with pages := pr.2 },
                      pmm := pmm_free [pr.1] w.pmm }, status_t.NO_ERROR) := by
          simp [FreePage, hrd, hr]
        have hget : listGetKey w.vmo.pages s = some pr.1 :=
          listRemoveKey_some_getKey _ _ _ _ (by rw [hr])
        have hsub : pr.2.Sublist w.vmo.pages :=
          listRemoveKey_sublist _ _ _ _ (by rw [hr])
        have hnd' : (pr.2.map Prod.fst).Nodup :=
          List.Nodup.sublist (List.Sublist.map Prod.fst hsub) hnd
        have hself : listGetKey pr.2 s = none :=
          listRemoveKey_self _ _ _ _ hnd (by rw [hr])
        have hframe : ∀ k', k' ≠ s → listGetKey pr.2 k' = listGetKey w.vmo.pages k' :=
          listRemoveKey_frame _ _ _ _ (by rw [hr])
        have hstep : decommitGo (n + 1) w s e dec =
            decommitGo n { w with vmo := { w.vmo with pages := pr.2 }, pmm := pmm_free [pr.1] w.pmm } (s + PAGE_SIZE) e (dec + PAGE_SIZE) := by
          simp [decommitGo, if_pos h, hfp]
        rw [hstep]
        obtain ⟨h1, h2, h3, h4, h5, h6, h7, h8⟩ :=
          ih { w with vmo := { w.vmo with pages := pr.2 },
                      pmm := pmm_free [pr.1] w.pmm } (s + PAGE_SIZE) e
            (dec + PAGE_SIZE) hal' hfuel' hnd'
        refine ⟨h1, h2, h3, h4, h5, h6, ?_, fun k => ?_⟩
        · rw [h7]
          have hcong : presentGo pr.2 n (s + PAGE_SIZE) e =
              presentGo w.vmo.pages n (s + PAGE_SIZE) e :=
            presentGo_congr n (s + PAGE_SIZE) e pr.2 w.vmo.pages hal'
              (fun k hka hks => hframe k (by simp only [PAGE_SIZE] at *; omega))
          rw [hcong]
          simp only [presentGo, if_pos h, pageListGet, hrd, hget]
          simp only [Option.isSome_some, if_pos, PAGE_SIZE]
          omega
        · rw [h8 k]
          by_cases hz : s + PAGE_SIZE ≤ k ∧ k < e ∧ k % PAGE_SIZE = 0
          · rw [if_pos hz, if_pos (by omega)]
          · by_cases hzb : s ≤ k ∧ k < e ∧ k % PAGE_SIZE = 0
            · have hks : k = s := by
                simp only [PAGE_SIZE] at *
                omega
              rw [if_neg hz, if_pos hzb, hks, hself]
            · rw [if_neg hz, if_neg hzb]
              exact hframe k (by intro hk; rw [hk] at hzb; exact hzb ⟨le_rfl, h, hal⟩)
    · have hstep : decommitGo (n + 1) w s e dec = (w, dec) := by
        simp [decommitGo, if_neg h]
      rw [hstep]
      refine ⟨rfl, rfl, rfl, rfl, rfl, hnd, by simp [presentGo, h], fun k => ?_⟩
      rw [if_neg (by omega)]

/-- C5: for an in-range non-empty (offset, len), with start =
round_down_page(offset) and end = round_up_page(offset+len), DecommitRange
first sends UnmapVmoRangeLocked(start, end-start) to every region, then
frees every present page at page offsets in [start, end), adding PAGE_SIZE
to *decommitted per freed page and skipping absent pages silently; in
particular the page partially covered at an unaligned start is freed. -/
theorem decommitRange_spec (w : World) (offset len : Nat)
    (hlen : 0 < len) (hin : offset + len ≤ w.vmo.size)
    (hnd : (w.vmo.pages.map Prod.fst).Nodup) :
    (DecommitRange w offset len).1 = status_t.NO_ERROR ∧
    (DecommitRange w offset len).2.1 = PAGE_SIZE *
      presentCount w.vmo.pages (PAGE_ALIGN offset) (ROUNDUP_PAGE_SIZE (offset + len)) ∧
    (DecommitRange w offset len).2.2.unmaps = w.unmaps ++ w.regions.map
      (fun r => (r, PAGE_ALIGN offset,
        ROUNDUP_PAGE_SIZE (offset + len) - PAGE_ALIGN offset)) ∧
    (DecommitRange w offset len).2.2.vmo.size = w.vmo.size ∧
    (DecommitRange w offset len).2.2.mem = w.mem ∧
    (∀ k, listGetKey (DecommitRange w offset len).2.2.vmo.pages k =
      if PAGE_ALIGN offset ≤ k ∧ k < ROUNDUP_PAGE_SIZE (offset + len) ∧
          k % PAGE_SIZE = 0 then none
      else listGetKey w.vmo.pages k) ∧
    pageListGet (DecommitRange w offset len).2.2.vmo.pages offset = none := by
  have htrim : TrimRange offset len w.vmo.size = some len := trimRange_in _ _ _ hin
  have hal : PAGE_ALIGN offset % PAGE_SIZE = 0 := page_align_aligned offset
  have hfuel : ROUNDUP_PAGE_SIZE (offset + len) ≤ PAGE_ALIGN offset +
      pageSteps (PAGE_ALIGN offset) (ROUNDUP_PAGE_SIZE (offset + len)) * PAGE_SIZE := by
    simp only [pageSteps, PAGE_ALIGN, ROUNDDOWN, ROUNDUP_PAGE_SIZE, ROUNDUP, PAGE_SIZE]
    omega
  simp only [DecommitRange, htrim]
  rw [if_neg (by omega : ¬ len = 0)]
  obtain ⟨h1, h2, h3, h4, h5, h6, h7, h8⟩ :=
    decommitGo_spec
      (pageSteps (PAGE_ALIGN offset) (ROUNDUP_PAGE_SIZE (offset + len)))
      (unmapRegions w (PAGE_ALIGN offset)
        (ROUNDUP_PAGE_SIZE (offset + len) - PAGE_ALIGN offset))
      (PAGE_ALIGN offset) (ROUNDUP_PAGE_SIZE (offset + len)) 0 hal hfuel hnd
  refine ⟨?_, ?_, ?_, h1, h2, fun k => h8 k, ?_⟩
  · rfl
  · simpa [decommitLoop] using h7
  · simpa [decommitLoop, unmapRegions] using h4
  · have := h8 (PAGE_ALIGN offset)
    rw [if_pos ⟨le_rfl, by simp only [PAGE_ALIGN, ROUNDDOWN, ROUNDUP_PAGE_SIZE,
      ROUNDUP, PAGE_SIZE] at *; omega, hal⟩] at this
    simp only [pageListGet]
    have hrd : ROUNDDOWN offset PAGE_SIZE = PAGE_ALIGN offset := rfl
    rw [hrd]
    exact this

/-- Witness for C5 at a concrete world: decommitting 50 bytes at the
unaligned offset 4100 frees the page at 4096 (the partially covered one)
and counts one page. -/
theorem decommitRange_spec_witness :
    (0 < 50 ∧ 4100 + 50 ≤ sampleW2.vmo.size ∧
      (sampleW2.vmo.pages.map Prod.fst).Nodup) ∧
    (DecommitRange sampleW2 4100 50).1 = status_t.NO_ERROR ∧
    (DecommitRange sampleW2 4100 50).2.1 = PAGE_SIZE *
      presentCount sampleW2.vmo.pages (PAGE_ALIGN 4100)
        (ROUNDUP_PAGE_SIZE (4100 + 50)) ∧
    pageListGet (DecommitRange sampleW2 4100 50).2.2.vmo.pages 4100 = none :=
  ⟨⟨by decide, by decide, by decide⟩,
   (decommitRange_spec sampleW2 4100 50 (by decide) (by decide) (by decide)).1,
   (decommitRange_spec sampleW2 4100 50 (by decide) (by decide) (by decide)).2.1,
   (decommitRange_spec sampleW2 4100 50 (by decide) (by decide) (by decide)).2.2.2.2.2.2⟩

/-!  Claim C6 — no-double-commit. -/

theorem pageListGet_cons_ne (k pid : Nat) (pages : List (Nat × Nat)) (o : Nat)
    (h : k ≠ ROUNDDOWN o PAGE_SIZE) :
    pageListGet ((k, pid) :: pages) o = pageListGet pages o := by
  simp [pageListGet, listGetKey_cons, h]

theorem rounddown_step_lt (o x : Nat) (h : o + PAGE_SIZE ≤ x) :
    ROUNDDOWN o PAGE_SIZE ≠ ROUNDDOWN x PAGE_SIZE := by
  simp only [ROUNDDOWN, PAGE_SIZE] at *
  omega

theorem missingGo_congr : ∀ (n : Nat) (p1 p2 : List (Nat × Nat)) (o e : Nat),
    (∀ x, o ≤ x → pageListGet p1 x = pageListGet p2 x) →
    missingGo p1 n o e = missingGo p2 n o e := by
  intro n
  induction n with
  | zero => intro p1 p2 o e _; rfl
  | succ n ih =>
    intro p1 p2 o e hx
    simp only [missingGo]
    rw [hx o le_rfl, ih p1 p2 (o + PAGE_SIZE) e (fun x h => hx x (by omega))]

theorem commitGo_mono : ∀ (n : Nat) (w : World) (batch : List Nat) (o e c x pid : Nat),
    pageListGet w.vmo.pages x = some pid →
    pageListGet (commitGo n w batch o e c).1.vmo.pages x = some pid := by
  intro n
  induction n with
  | zero => intro w batch o e c x pid h; exact h
  | succ n ih =>
    intro w batch o e c x pid h
    by_cases ho : o < e
    · simp only [commitGo, if_pos ho]
      cases hg : pageListGet w.vmo.pages o with
      | some q => exact ih w batch (o + PAGE_SIZE) e c x pid h
      | none =>
        cases batch with
        | nil => exact ih w [] (o + PAGE_SIZE) e c x pid h
        | cons pid' rest =>
          have hadd : pageListAdd w.vmo.pages pid' o =
              some ((ROUNDDOWN o PAGE_SIZE, pid') :: w.vmo.pages) := by
            simp [pageListAdd, hg]
          simp only [hadd, Option.getD_some]
          apply ih
          have hne : ROUNDDOWN o PAGE_SIZE ≠ ROUNDDOWN x PAGE_SIZE := by
            intro he
            rw [show pageListGet w.vmo.pages x =
              pageListGet w.vmo.pages o from by simp [pageListGet, ← he]] at h
            rw [h] at hg
            cases hg
          rw [pageListGet_cons_ne _ _ _ _ hne]
          exact h
    · simp only [commitGo, if_neg ho]
      exact h

theorem commitGo_size : ∀ (n : Nat) (w : World) (batch : List Nat) (o e c : Nat),
    (commitGo n w batch o e c).1.vmo.size = w.vmo.size := by
  intro n
  induction n with
  | zero => intro w batch o e c; rfl
  | succ n ih =>
    intro w batch o e c
    by_cases ho : o < e
    · simp only [commitGo, if_pos ho]
      cases hg : pageListGet w.vmo.pages o with
      | some q => exact ih w batch (o + PAGE_SIZE) e c
      | none =>
        cases batch with
        | nil => exact ih w [] (o + PAGE_SIZE) e c
        | cons pid' rest => exact ih _ rest (o + PAGE_SIZE) e (c + PAGE_SIZE)
    · simp only [commitGo, if_neg ho]

theorem commitGo_fills : ∀ (n : Nat) (w : World) (batch : List Nat) (o e c : Nat),
    missingGo w.vmo.pages n o e ≤ batch.length →
    missingGo (commitGo n w batch o e c).1.vmo.pages n o e = 0 := by
  intro n
  induction n with
  | zero => intro w batch o e c _; rfl
  | succ n ih =>
    intro w batch o e c hb
    by_cases ho : o < e
    · rw [missingGo, if_pos ho] at hb
      cases hg : pageListGet w.vmo.pages o with
      | some q =>
        rw [hg] at hb
        simp only [Option.isSome_some, if_pos] at hb
        simp only [commitGo, if_pos ho, hg]
        rw [missingGo, if_pos ho]
        rw [commitGo_mono n w batch (o + PAGE_SIZE) e c o q hg]
        simp only [Option.isSome_some, if_true]
        have := ih w batch (o + PAGE_SIZE) e c (by omega)
        omega
      | none =>
        rw [hg] at hb
        simp only [Option.isSome_none, Bool.false_eq_true, if_false] at hb
        cases batch with
        | nil => simp at hb
        | cons pid rest =>
          have hadd : pageListAdd w.vmo.pages pid o =
              some ((ROUNDDOWN o PAGE_SIZE, pid) :: w.vmo.pages) := by
            simp [pageListAdd, hg]
          simp only [commitGo, if_pos ho, hg, hadd, Option.getD_some]
          rw [missingGo, if_pos ho]
          have hpres : pageListGet ((ROUNDDOWN o PAGE_SIZE, pid) :: w.vmo.pages) o =
              some pid := by
            simp [pageListGet, listGetKey_cons]
          have hmono := commitGo_mono n
            { w with mem := zeroPageMem w.mem pid,
                     vmo := { w.vmo with pages := (ROUNDDOWN o PAGE_SIZE, pid) :: w.vmo.pages } }
            rest (o + PAGE_SIZE) e (c + PAGE_SIZE) o pid hpres
          rw [hmono]
          simp only [Option.isSome_some, if_true]
          have hcong : missingGo ((ROUNDDOWN o PAGE_SIZE, pid) :: w.vmo.pages) n
              (o + PAGE_SIZE) e = missingGo w.vmo.pages n (o + PAGE_SIZE) e := by
            apply missingGo_congr
            intro x hx
            exact pageListGet_cons_ne _ _ _ _ (rounddown_step_lt o x hx)
          have hble : missingGo ((ROUNDDOWN o PAGE_SIZE, pid) :: w.vmo.pages) n
              (o + PAGE_SIZE) e ≤ rest.length := by
            rw [hcong]
            simp only [List.length_cons] at hb
            omega
          have hfin := ih
            { w with mem := zeroPageMem w.mem pid,
                     vmo := { w.vmo with pages := (ROUNDDOWN o PAGE_SIZE, pid) :: w.vmo.pages } }
            rest (o + PAGE_SIZE) e (c + PAGE_SIZE) hble
          rw [Nat.zero_add]
          exact hfin
    · rw [missingGo, if_neg ho]

/-- C6: for every VMO and in-range (o, l), if CommitRange(o, l) succeeds
then an immediately repeated CommitRange(o, l) returns ok with
*committed == 0 and the world — page list, allocator free list and the
ghost allocation-request trace — exactly unchanged: the second call
requests zero pages from the allocator. -/
theorem commitRange_idempotent (w : World) (offset len : Nat)
    (hin : offset + len ≤ w.vmo.size)
    (hok : (CommitRange w offset len).1 = status_t.NO_ERROR) :
    CommitRange (CommitRange w offset len).2.2 offset len =
      (status_t.NO_ERROR, 0, (CommitRange w offset len).2.2) := by
  have htrim : TrimRange offset len w.vmo.size = some len := trimRange_in _ _ _ hin
  by_cases hl : len = 0
  · have h1 : CommitRange w offset len = (status_t.NO_ERROR, 0, w) := by
      subst hl
      simp [CommitRange, htrim]
    rw [h1]
    exact h1
  · by_cases hc : missingCount w.vmo.pages offset (ROUNDUP_PAGE_SIZE (offset + len)) = 0
    · have h1 : CommitRange w offset len = (status_t.NO_ERROR, 0, w) := by
        simp only [CommitRange, htrim]
        rw [if_neg hl, if_pos hc]
      rw [h1]
      simp only [CommitRange, htrim]
      rw [if_neg hl, if_pos hc]
    · by_cases hb : (pmm_alloc_pages
          (missingCount w.vmo.pages offset (ROUNDUP_PAGE_SIZE (offset + len)))
          w.pmm).1.length <
          missingCount w.vmo.pages offset (ROUNDUP_PAGE_SIZE (offset + len))
      · exfalso
        have h1 : (CommitRange w offset len).1 = status_t.ERR_NO_MEMORY := by
          simp only [CommitRange, htrim]
          rw [if_neg hl, if_neg hc, if_pos hb]
        rw [h1] at hok
        cases hok
      · have hw1 : (CommitRange w offset len).2.2 =
            (commitGo (pageSteps offset (ROUNDUP_PAGE_SIZE (offset + len)))
              { w with pmm := (pmm_alloc_pages
                (missingCount w.vmo.pages offset (ROUNDUP_PAGE_SIZE (offset + len)))
                w.pmm).2 }
              (pmm_alloc_pages
                (missingCount w.vmo.pages offset (ROUNDUP_PAGE_SIZE (offset + len)))
                w.pmm).1
              offset (ROUNDUP_PAGE_SIZE (offset + len)) 0).1 := by
          simp only [CommitRange, htrim]
          rw [if_neg hl, if_neg hc, if_neg hb]
          rfl
        have hsz : (CommitRange w offset len).2.2.vmo.size = w.vmo.size := by
          rw [hw1]
          exact commitGo_size _ _ _ _ _ _
        have hfill : missingCount (CommitRange w offset len).2.2.vmo.pages offset
            (ROUNDUP_PAGE_SIZE (offset + len)) = 0 := by
          rw [hw1]
          exact commitGo_fills _ _ _ _ _ _ (by
            simp only [pmm_alloc_pages, List.length_take] at hb ⊢
            have : missingGo w.vmo.pages
                (pageSteps offset (ROUNDUP_PAGE_SIZE (offset + len))) offset
                (ROUNDUP_PAGE_SIZE (offset + len)) =
              missingCount w.vmo.pages offset (ROUNDUP_PAGE_SIZE (offset + len)) := rfl
            rw [this]
            omega)
        generalize hgen : (CommitRange w offset len).2.2 = w1
        rw [hgen] at hsz hfill
        have htrim2 : TrimRange offset len w1.vmo.size = some len := by
          rw [hsz]
          exact htrim
        simp only [CommitRange, htrim2]
        rw [if_neg hl, if_pos hfill]

/-- Witness for C6 at a concrete world: committing [0, 8192) of the empty
8 KiB VMO succeeds and a second identical commit returns (ok, 0) leaving
the world, including the allocator-request trace, unchanged. -/
theorem commitRange_idempotent_witness :
    (0 + 8192 ≤ sampleW.vmo.size ∧ (CommitRange sampleW 0 8192).1 = status_t.NO_ERROR) ∧
    CommitRange (CommitRange sampleW 0 8192).2.2 0 8192 =
      (status_t.NO_ERROR, 0, (CommitRange sampleW 0 8192).2.2) :=
  ⟨⟨by decide, by decide⟩,
   commitRange_idempotent sampleW 0 8192 (by decide) (by decide)⟩

/-!  Claim C4 — the page-list invariant is preserved by every public
operation. -/

theorem trimRange_some_le (offset len size len' : Nat)
    (h : TrimRange offset len size = some len') : offset + len' ≤ size := by
  unfold TrimRange at h
  by_cases hc : size < offset
  · rw [if_pos hc] at h
    cases h
  · rw [if_neg hc] at h
    simp only [Option.some.injEq] at h
    omega

theorem roundup_page_mono (a b : Nat) (h : a ≤ b) :
    ROUNDUP_PAGE_SIZE a ≤ ROUNDUP_PAGE_SIZE b := by
  simp only [ROUNDUP_PAGE_SIZE, ROUNDUP, PAGE_SIZE]
  omega

theorem le_roundup_page (a : Nat) : a ≤ ROUNDUP_PAGE_SIZE a := by
  simp only [ROUNDUP_PAGE_SIZE, ROUNDUP, PAGE_SIZE]
  omega

theorem rounddown_le_self (a : Nat) : ROUNDDOWN a PAGE_SIZE ≤ a := by
  simp only [ROUNDDOWN, PAGE_SIZE]
  omega

theorem mem_map_fst_get_ne_none (pages : List (Nat × Nat)) (k : Nat)
    (h : k ∈ pages.map Prod.fst) : listGetKey pages k ≠ none := by
  intro hn
  obtain ⟨x, hx, hxk⟩ := List.mem_map.mp h
  exact (listGetKey_eq_none_iff pages k).mp hn x hx hxk

theorem pagesWF_insert (v : Vmo) (pid o : Nat)
    (h : pageListGet v.pages o = none) (ho : o < ROUNDUP_PAGE_SIZE v.size)
    (hwf : pagesWF v) :
    pagesWF { v with pages := (ROUNDDOWN o PAGE_SIZE, pid) :: v.pages } := by
  obtain ⟨hnd, hb⟩ := hwf
  refine ⟨?_, ?_⟩
  · simp only [List.map_cons, List.nodup_cons]
    refine ⟨fun hmem => ?_, hnd⟩
    exact mem_map_fst_get_ne_none _ _ hmem h
  · intro x hx
    rcases List.mem_cons.mp hx with hx1 | hx2
    · subst hx1
      refine ⟨page_align_aligned o, ?_⟩
      show ROUNDDOWN o PAGE_SIZE < ROUNDUP_PAGE_SIZE v.size
      have h1 := rounddown_le_self o
      omega
    · exact hb x hx2

theorem faultPageLocked_wf (w : World) (offset : Nat) (hwf : pagesWF w.vmo) :
    pagesWF (FaultPageLocked w offset).2.vmo ∧
    (FaultPageLocked w offset).2.vmo.size = w.vmo.size := by
  unfold FaultPageLocked
  by_cases ho : offset ≥ w.vmo.size
  · rw [if_pos ho]
    exact ⟨hwf, rfl⟩
  · rw [if_neg ho]
    cases hg : pageListGet w.vmo.pages offset with
    | some pid => exact ⟨hwf, rfl⟩
    | none =>
      cases hfree : w.pmm.free with
      | nil =>
        simp only [pmm_alloc_page, hfree]
        exact ⟨hwf, by trivial⟩
      | cons pid rest =>
        simp only [pmm_alloc_page, hfree]
        have hadd : pageListAdd w.vmo.pages pid offset =
            some ((ROUNDDOWN offset PAGE_SIZE, pid) :: w.vmo.pages) := by
          simp [pageListAdd, hg]
        simp only [hadd, Option.getD_some]
        constructor
        · exact pagesWF_insert w.vmo pid offset hg
            (by have := le_roundup_page w.vmo.size; omega) hwf
        · trivial

theorem rwGo_wf (E : Type)
    (copyfunc : Nat → Nat → Nat → Nat → World → E → status_t × World × E)
    (hcf : ∀ pid poff dest n w ext, (copyfunc pid poff dest n w ext).2.1.vmo = w.vmo) :
    ∀ (n : Nat) (w : World) (ext : E) (offset len dest copied : Nat),
    pagesWF w.vmo →
    pagesWF (rwGo E copyfunc n w ext offset len dest copied).2.2.1.vmo := by
  intro n
  induction n with
  | zero => intro w ext offset len dest copied hwf; exact hwf
  | succ n ih =>
    intro w ext offset len dest copied hwf
    by_cases hl : 0 < len
    · simp only [rwGo, if_pos hl]
      obtain ⟨hwf', _⟩ := faultPageLocked_wf w offset hwf
      cases hfr : (FaultPageLocked w offset).1 with
      | none => exact hwf'
      | some pid =>
        dsimp only
        have hwfc : pagesWF (copyfunc pid (offset % PAGE_SIZE)
            dest (min (PAGE_SIZE - offset % PAGE_SIZE) len)
            (FaultPageLocked w offset).2 ext).2.1.vmo := by
          rw [hcf]
          exact hwf'
        by_cases hst : (copyfunc pid (offset % PAGE_SIZE) dest
            (min (PAGE_SIZE - offset % PAGE_SIZE) len)
            (FaultPageLocked w offset).2 ext).1 = status_t.NO_ERROR
        · rw [if_pos hst]
          exact ih _ _ _ _ _ _ hwfc
        · rw [if_neg hst]
          exact hwfc
    · simp only [rwGo, if_neg hl]
      exact hwf

theorem commitGo_wf : ∀ (n : Nat) (w : World) (batch : List Nat) (o e c : Nat),
    e ≤ ROUNDUP_PAGE_SIZE w.vmo.size → pagesWF w.vmo →
    pagesWF (commitGo n w batch o e c).1.vmo := by
  intro n
  induction n with
  | zero => intro w batch o e c _ hwf; exact hwf
  | succ n ih =>
    intro w batch o e c he hwf
    by_cases ho : o < e
    · simp only [commitGo, if_pos ho]
      cases hg : pageListGet w.vmo.pages o with
      | some q => exact ih w batch (o + PAGE_SIZE) e c he hwf
      | none =>
        cases batch with
        | nil => exact ih w [] (o + PAGE_SIZE) e c he hwf
        | cons pid rest =>
          have hadd : pageListAdd w.vmo.pages pid o =
              some ((ROUNDDOWN o PAGE_SIZE, pid) :: w.vmo.pages) := by
            simp [pageListAdd, hg]
          simp only [hadd, Option.getD_some]
          exact ih _ rest (o + PAGE_SIZE) e (c + PAGE_SIZE) he
            (pagesWF_insert w.vmo pid o hg (by omega) hwf)
    · simp only [commitGo, if_neg ho]
      exact hwf

theorem contigGo_wf : ∀ (n : Nat) (w : World) (batch : List Nat) (o e c : Nat),
    e ≤ ROUNDUP_PAGE_SIZE w.vmo.size → pagesWF w.vmo →
    ∀ w' com, contigGo n w batch o e c = some (w', com) → pagesWF w'.vmo := by
  intro n
  induction n with
  | zero =>
    intro w batch o e c _ hwf w' com h
    simp only [contigGo, Option.some.injEq, Prod.mk.injEq] at h
    rw [← h.1]
    exact hwf
  | succ n ih =>
    intro w batch o e c he hwf w' com h
    by_cases ho : o < e
    · simp only [contigGo] at h
      rw [if_pos ho] at h
      cases batch with
      | nil => cases h
      | cons pid rest =>
        simp only at h
        by_cases hg : (pageListGet w.vmo.pages o).isSome
        · have hadd : pageListAdd w.vmo.pages pid o = none := by
            simp [pageListAdd, hg]
          rw [hadd] at h
          refine ih _ rest (o + PAGE_SIZE) e (c + PAGE_SIZE) ?_ ?_ w' com h
          · exact he
          · exact hwf
        · have hg' : pageListGet w.vmo.pages o = none := by
            cases hx : pageListGet w.vmo.pages o
            · rfl
            · rw [hx] at hg; simp at hg
          have hadd : pageListAdd w.vmo.pages pid o =
              some ((ROUNDDOWN o PAGE_SIZE, pid) :: w.vmo.pages) := by
            simp [pageListAdd, hg']
          rw [hadd] at h
          simp only [Option.getD_some] at h
          refine ih _ rest (o + PAGE_SIZE) e (c + PAGE_SIZE) ?_ ?_ w' com h
          · exact he
          · exact pagesWF_insert w.vmo pid o hg' (by omega) hwf
    · simp only [contigGo] at h
      rw [if_neg ho] at h
      simp only [Option.some.injEq, Prod.mk.injEq] at h
      rw [← h.1]
      exact hwf

theorem decommitGo_frame : ∀ (n : Nat) (w : World) (s e dec : Nat),
    (decommitGo n w s e dec).1.vmo.size = w.vmo.size ∧
    (((w.vmo.pages.map Prod.fst).Nodup →
      ((decommitGo n w s e dec).1.vmo.pages.map Prod.fst).Nodup)) ∧
    (∀ x ∈ (decommitGo n w s e dec).1.vmo.pages, x ∈ w.vmo.pages) := by
  intro n
  induction n with
  | zero => intro w s e dec; exact ⟨rfl, fun h => h, fun x hx => hx⟩
  | succ n ih =>
    intro w s e dec
    by_cases ho : s < e
    · cases hr : listRemoveKey w.vmo.pages (ROUNDDOWN s PAGE_SIZE) with
      | none =>
        have hfp : FreePage w s = (w, status_t.ERR_NOT_FOUND) := by
          simp [FreePage, hr]
        have hstep : decommitGo (n + 1) w s e dec =
            decommitGo n w (s + PAGE_SIZE) e dec := by
          simp [decommitGo, if_pos ho, hfp]
        rw [hstep]
        exact ih w (s + PAGE_SIZE) e dec
      | some pr =>
        have hfp : FreePage w s =
            ({ w with vmo := { w.vmo with pages := pr.2 },
                      pmm := pmm_free [pr.1] w.pmm }, status_t.NO_ERROR) := by
          simp [FreePage, hr]
        have hstep : decommitGo (n + 1) w s e dec =
            decommitGo n { w with vmo := { w.vmo with pages := pr.2 }, pmm := pmm_free [pr.1] w.pmm } (s + PAGE_SIZE) e (dec + PAGE_SIZE) := by
          simp [decommitGo, if_pos ho, hfp]
        rw [hstep]
        have hsub : pr.2.Sublist w.vmo.pages :=
          listRemoveKey_sublist _ _ _ _ (by rw [hr])
        obtain ⟨i1, i2, i3⟩ := ih
          { w with vmo := { w.vmo with pages := pr.2 }, pmm := pmm_free [pr.1] w.pmm }
          (s + PAGE_SIZE) e (dec + PAGE_SIZE)
        refine ⟨i1, fun hnd => i2 (List.Nodup.sublist (List.Sublist.map Prod.fst hsub) hnd),
          fun x hx => hsub.subset (i3 x hx)⟩
    · have hstep : decommitGo (n + 1) w s e dec = (w, dec) := by
        simp [decommitGo, if_neg ho]
      rw [hstep]
      exact ⟨rfl, fun h => h, fun x hx => hx⟩

theorem cacheGo_vmo (t n : Nat) (w : World) (o e : Nat) :
    (cacheGo t n w o e).vmo = w.vmo := by
  rw [cacheGo_trace]

/-- C4: the page-list invariant of spec section 3 — every (offset, page)
entry has a page-aligned offset below round_up_page(size), together with
the key-uniqueness invariant the preservation argument needs — is
preserved by every public operation: AddPage, Resize, CommitRange,
CommitRangeContiguous, DecommitRange, Read, Write, ReadUser, WriteUser,
Lookup and the cache ops. -/
theorem step_preserves_pageListInv (w : World) (op : Op) (hwf : pagesWF w.vmo) :
    pagesWF (step w op).vmo := by
  cases op with
  | addPage pid offset =>
    simp only [step, AddPage]
    by_cases ho : offset ≥ w.vmo.size
    · rw [if_pos ho]
      exact hwf
    · rw [if_neg ho]
      by_cases hg : (pageListGet w.vmo.pages offset).isSome
      · have hadd : pageListAdd w.vmo.pages pid offset = none := by
          simp [pageListAdd, hg]
        rw [hadd]
        exact hwf
      · have hg' : pageListGet w.vmo.pages offset = none := by
          cases hx : pageListGet w.vmo.pages offset
          · rfl
          · rw [hx] at hg; simp at hg
        have hadd : pageListAdd w.vmo.pages pid offset =
            some ((ROUNDDOWN offset PAGE_SIZE, pid) :: w.vmo.pages) := by
          simp [pageListAdd, hg']
        rw [hadd]
        exact pagesWF_insert w.vmo pid offset hg'
          (by have := le_roundup_page w.vmo.size; omega) hwf
  | resize s =>
    simp only [step, Resize]
    by_cases hmax : s > MAX_SIZE
    · rw [if_pos hmax]
      exact hwf
    · rw [if_neg hmax]
      by_cases hs : s < w.vmo.size
      · rw [if_pos hs]
        by_cases hlen : 0 < ROUNDUP_PAGE_SIZE w.vmo.size - ROUNDUP_PAGE_SIZE s
        · rw [if_pos hlen]
          have hal : ROUNDUP_PAGE_SIZE s % PAGE_SIZE = 0 := roundup_page_aligned s
          obtain ⟨h1, h2, h3, h4, h5, h6, h7⟩ :=
            freeGo_spec (pageSteps (ROUNDUP_PAGE_SIZE s) (ROUNDUP_PAGE_SIZE w.vmo.size))
              (unmapRegions w (ROUNDUP_PAGE_SIZE s)
                (ROUNDUP_PAGE_SIZE w.vmo.size - ROUNDUP_PAGE_SIZE s))
              (ROUNDUP_PAGE_SIZE s) (ROUNDUP_PAGE_SIZE w.vmo.size) hal hwf.1
          refine ⟨h6, fun x hx => ?_⟩
          obtain ⟨hmem, hexcl⟩ := h7 x (by simpa [freeLoop] using hx)
          have hx' : x ∈ w.vmo.pages := by simpa [unmapRegions] using hmem
          obtain ⟨hxa, hxb⟩ := hwf.2 x hx'
          have := hexcl hxa
          refine ⟨hxa, ?_⟩
          simp only [pageSteps, ROUNDUP_PAGE_SIZE, ROUNDUP, PAGE_SIZE] at *
          omega
        · rw [if_neg hlen]
          refine ⟨hwf.1, fun x hx => ?_⟩
          obtain ⟨hxa, hxb⟩ := hwf.2 x hx
          refine ⟨hxa, ?_⟩
          simp only [ROUNDUP_PAGE_SIZE, ROUNDUP, PAGE_SIZE] at *
          omega
      · rw [if_neg hs]
        refine ⟨hwf.1, fun x hx => ?_⟩
        obtain ⟨hxa, hxb⟩ := hwf.2 x hx
        refine ⟨hxa, ?_⟩
        show x.1 < ROUNDUP_PAGE_SIZE s
        have := roundup_page_mono w.vmo.size s (by omega)
        omega
  | commitRange offset len =>
    simp only [step, CommitRange]
    cases ht : TrimRange offset len w.vmo.size with
    | none => exact hwf
    | some len' =>
      dsimp only
      have hle := trimRange_some_le offset len w.vmo.size len' ht
      by_cases hl : len' = 0
      · rw [if_pos hl]
        exact hwf
      · rw [if_neg hl]
        by_cases hc : missingCount w.vmo.pages offset (ROUNDUP_PAGE_SIZE (offset + len')) = 0
        · rw [if_pos hc]
          exact hwf
        · rw [if_neg hc]
          by_cases hb : (pmm_alloc_pages
              (missingCount w.vmo.pages offset (ROUNDUP_PAGE_SIZE (offset + len')))
              w.pmm).1.length <
              missingCount w.vmo.pages offset (ROUNDUP_PAGE_SIZE (offset + len'))
          · rw [if_pos hb]
            exact hwf
          · rw [if_neg hb]
            exact commitGo_wf _ _ _ _ _ _ (roundup_page_mono _ _ hle) hwf
  | commitRangeContiguous offset len =>
    simp only [step]
    cases hcc : CommitRangeContiguous w offset len with
    | none => exact hwf
    | some r =>
      unfold CommitRangeContiguous at hcc
      revert hcc
      cases ht : TrimRange offset len w.vmo.size with
      | none =>
        intro hcc
        simp only [Option.some.injEq] at hcc
        rw [← hcc]
        exact hwf
      | some len' =>
        intro hcc
        dsimp only at hcc
        have hle := trimRange_some_le offset len w.vmo.size len' ht
        by_cases hl : len' = 0
        · rw [if_pos hl] at hcc
          simp only [Option.some.injEq] at hcc
          rw [← hcc]
          exact hwf
        · rw [if_neg hl] at hcc
          by_cases hb : (pmm_alloc_contiguous
              (missingCount w.vmo.pages offset (ROUNDUP_PAGE_SIZE (offset + len')))
              w.pmm).1.length <
              missingCount w.vmo.pages offset (ROUNDUP_PAGE_SIZE (offset + len'))
          · rw [if_pos hb] at hcc
            simp only [Option.some.injEq] at hcc
            rw [← hcc]
            exact hwf
          · rw [if_neg hb] at hcc
            revert hcc
            cases hcg : contigLoop
                { w with pmm := (pmm_alloc_contiguous
                  (missingCount w.vmo.pages offset (ROUNDUP_PAGE_SIZE (offset + len')))
                  w.pmm).2 }
                (pmm_alloc_contiguous
                  (missingCount w.vmo.pages offset (ROUNDUP_PAGE_SIZE (offset + len')))
                  w.pmm).1 offset (ROUNDUP_PAGE_SIZE (offset + len')) 0 with
            | none => intro hcc; cases hcc
            | some pr =>
              intro hcc
              simp only [Option.some.injEq] at hcc
              rw [← hcc]
              have hcg' : contigGo
                  (pageSteps offset (ROUNDUP_PAGE_SIZE (offset + len')))
                  { w with pmm := (pmm_alloc_contiguous
                    (missingCount w.vmo.pages offset (ROUNDUP_PAGE_SIZE (offset + len')))
                    w.pmm).2 }
                  (pmm_alloc_contiguous
                    (missingCount w.vmo.pages offset (ROUNDUP_PAGE_SIZE (offset + len')))
                    w.pmm).1 offset (ROUNDUP_PAGE_SIZE (offset + len')) 0 =
                  some (pr.1, pr.2) := hcg
              refine contigGo_wf _ _ _ _ _ _ ?_ ?_ pr.1 pr.2 hcg'
              · exact roundup_page_mono _ _ hle
              · exact hwf
  | decommitRange offset len =>
    simp only [step, DecommitRange]
    cases ht : TrimRange offset len w.vmo.size with
    | none => exact hwf
    | some len' =>
      dsimp only
      by_cases hl : len' = 0
      · rw [if_pos hl]
        exact hwf
      · rw [if_neg hl]
        obtain ⟨f1, f2, f3⟩ := decommitGo_frame
          (pageSteps (PAGE_ALIGN offset) (ROUNDUP_PAGE_SIZE (offset + len')))
          (unmapRegions w (PAGE_ALIGN offset)
            (ROUNDUP_PAGE_SIZE (offset + len') - PAGE_ALIGN offset))
          (PAGE_ALIGN offset) (ROUNDUP_PAGE_SIZE (offset + len')) 0
        refine ⟨f2 hwf.1, fun x hx => ?_⟩
        have hx' : x ∈ w.vmo.pages := by simpa [unmapRegions] using f3 x hx
        obtain ⟨hxa, hxb⟩ := hwf.2 x hx'
        refine ⟨hxa, ?_⟩
        have hsz : (decommitLoop (unmapRegions w (PAGE_ALIGN offset)
            (ROUNDUP_PAGE_SIZE (offset + len') - PAGE_ALIGN offset))
            (PAGE_ALIGN offset) (ROUNDUP_PAGE_SIZE (offset + len')) 0).1.vmo.size =
            w.vmo.size := by simpa [decommitLoop, unmapRegions] using f1
        rw [hsz]
        exact hxb
  | read k out offset len c0 =>
    simp only [step, Read]
    by_cases hk : k
    · simp only [hk, Bool.not_true, Bool.false_eq_true, if_false, ReadWriteInternal]
      cases ht : TrimRange offset len w.vmo.size with
      | none => exact hwf
      | some len' =>
        dsimp only
        by_cases hl : len' = 0
        · rw [if_pos hl]
          exact hwf
        · rw [if_neg hl]
          exact rwGo_wf _ read_routine (fun _ _ _ _ _ _ => rfl) _ _ _ _ _ _ _ hwf
    · simp only [hk]
      exact hwf
  | write k buf offset len c0 =>
    simp only [step, Write]
    by_cases hk : k
    · simp only [hk, Bool.not_true, Bool.false_eq_true, if_false, ReadWriteInternal]
      cases ht : TrimRange offset len w.vmo.size with
      | none => exact hwf
      | some len' =>
        dsimp only
        by_cases hl : len' = 0
        · rw [if_pos hl]
          exact hwf
        · rw [if_neg hl]
          exact rwGo_wf _ write_routine (fun _ _ _ _ _ _ => rfl) _ _ _ _ _ _ _ hwf
    · simp only [hk]
      exact hwf
  | readUser u out offset len c0 =>
    simp only [step, ReadUser]
    by_cases hk : u
    · simp only [hk, Bool.not_true, Bool.false_eq_true, if_false, ReadWriteInternal]
      cases ht : TrimRange offset len w.vmo.size with
      | none => exact hwf
      | some len' =>
        dsimp only
        by_cases hl : len' = 0
        · rw [if_pos hl]
          exact hwf
        · rw [if_neg hl]
          exact rwGo_wf _ read_routine (fun _ _ _ _ _ _ => rfl) _ _ _ _ _ _ _ hwf
    · simp only [hk]
      exact hwf
  | writeUser u buf offset len c0 =>
    simp only [step, WriteUser]
    by_cases hk : u
    · simp only [hk, Bool.not_true, Bool.false_eq_true, if_false, ReadWriteInternal]
      cases ht : TrimRange offset len w.vmo.size with
      | none => exact hwf
      | some len' =>
        dsimp only
        by_cases hl : len' = 0
        · rw [if_pos hl]
          exact hwf
        · rw [if_neg hl]
          exact rwGo_wf _ write_routine (fun _ _ _ _ _ _ => rfl) _ _ _ _ _ _ _ hwf
    · simp only [hk]
      exact hwf
  | lookup offset len bs =>
    simp only [step, Lookup]
    split_ifs <;> exact hwf
  | cacheOp offset len t =>
    simp only [step, CacheOp]
    split_ifs
    · exact hwf
    · exact hwf
    · have : (cacheLoop w t offset (offset + len)).vmo = w.vmo := by
        simp only [cacheLoop]
        exact cacheGo_vmo _ _ _ _ _
      rw [this]
      exact hwf

/-- Witness for C4: the invariant holds for the sample world and is
preserved by a decommit over an unaligned sub-range. -/
theorem step_preserves_pageListInv_witness :
    pagesWF sampleW2.vmo ∧ pagesWF (step sampleW2 (Op.decommitRange 4100 50)).vmo :=
  ⟨by decide, step_preserves_pageListInv sampleW2 (Op.decommitRange 4100 50) (by decide)⟩

/-!  Byte-level lemmas for the read/write copy routines. -/

theorem memSet_spec (mem : Nat → Nat → Nat) (pid off b q j : Nat) :
    memSet mem pid off b q j = if q = pid ∧ j = off then b else mem q j := rfl

theorem memWriteBytes_spec : ∀ (bytes : List Nat) (mem : Nat → Nat → Nat)
    (pid off q j : Nat),
    memWriteBytes mem pid off bytes q j =
      if q = pid ∧ off ≤ j ∧ j < off + bytes.length then bytes.getD (j - off) 0
      else mem q j := by
  intro bytes
  induction bytes with
  | nil =>
    intro mem pid off q j
    simp only [memWriteBytes, List.length_nil, Nat.add_zero]
    rw [if_neg (by omega)]
  | cons b rest ih =>
    intro mem pid off q j
    simp only [memWriteBytes]
    rw [ih]
    by_cases h1 : q = pid ∧ off + 1 ≤ j ∧ j < off + 1 + rest.length
    · rw [if_pos h1, if_pos (by simp only [List.length_cons]; omega)]
      have hj : j - off = (j - (off + 1)) + 1 := by omega
      rw [hj, List.getD_cons_succ]
    · rw [if_neg h1]
      by_cases h2 : q = pid ∧ off ≤ j ∧ j < off + (b :: rest).length
      · rw [if_pos h2, memSet_spec]
        have hj : j = off := by
          simp only [List.length_cons] at h2
          omega
        rw [if_pos ⟨h2.1, hj⟩, hj, Nat.sub_self, List.getD_cons_zero]
      · rw [if_neg h2, memSet_spec]
        rw [if_neg (by simp only [List.length_cons] at h2; omega)]

theorem map_range_getD (f : Nat → Nat) (n k : Nat) (h : k < n) :
    ((List.range n).map f).getD k 0 = f k := by
  rw [List.getD_eq_getElem?_getD, List.getElem?_map, List.getElem?_range h]
  rfl

theorem listWriteAt_length : ∀ (src l : List Nat) (pos : Nat),
    (listWriteAt l pos src).length = l.length := by
  intro src
  induction src with
  | nil => intro l pos; rfl
  | cons b rest ih =>
    intro l pos
    simp only [listWriteAt]
    rw [ih, List.length_set]

theorem listWriteAt_getD : ∀ (src l : List Nat) (pos j : Nat),
    (listWriteAt l pos src).getD j 0 =
      if pos ≤ j ∧ j < pos + src.length ∧ j < l.length then src.getD (j - pos) 0
      else l.getD j 0 := by
  intro src
  induction src with
  | nil =>
    intro l pos j
    simp only [listWriteAt, List.length_nil, Nat.add_zero]
    rw [if_neg (by omega)]
  | cons b rest ih =>
    intro l pos j
    simp only [listWriteAt]
    rw [ih]
    rw [List.length_set]
    by_cases h1 : pos + 1 ≤ j ∧ j < pos + 1 + rest.length ∧ j < l.length
    · rw [if_pos h1, if_pos (by simp only [List.length_cons]; omega)]
      have hj : j - pos = (j - (pos + 1)) + 1 := by omega
      rw [hj, List.getD_cons_succ]
    · rw [if_neg h1]
      by_cases h2 : pos ≤ j ∧ j < pos + (b :: rest).length ∧ j < l.length
      · have hj : j = pos := by
          simp only [List.length_cons] at h2
          omega
        rw [if_pos h2, hj, Nat.sub_self, List.getD_cons_zero]
        rw [List.getD_eq_getElem?_getD, List.getElem?_set_eq_of_lt b (by omega)]
        rfl
      · rw [if_neg h2]
        by_cases h3 : pos = j
        · subst h3
          have hlen : l.length ≤ pos := by
            simp only [List.length_cons] at h2
            omega
          rw [List.getD_eq_getElem?_getD,
            List.getElem?_eq_none (by rw [List.length_set]; exact hlen)]
          rw [List.getD_eq_getElem?_getD, List.getElem?_eq_none hlen]
        · rw [List.getD_eq_getElem?_getD, List.getElem?_set_ne h3, ← List.getD_eq_getElem?_getD]

theorem listGetKey_some_mem : ∀ (pages : List (Nat × Nat)) (k pid : Nat),
    listGetKey pages k = some pid → (k, pid) ∈ pages := by
  intro pages
  induction pages with
  | nil => intro k pid h; cases h
  | cons x rest ih =>
    intro k pid h
    rw [listGetKey_cons] at h
    by_cases hx : x.1 = k
    · rw [if_pos hx] at h
      simp only [Option.some.injEq] at h
      have hxe : x = (k, pid) := by rw [← hx, ← h]
      rw [← hxe]
      exact List.mem_cons_self x rest
    · rw [if_neg hx] at h
      right
      exact ih k pid h

/-!  Chunk-walk lemmas for the read/write loop. -/

theorem rounddown_rounddown (a : Nat) :
    ROUNDDOWN (ROUNDDOWN a PAGE_SIZE) PAGE_SIZE = ROUNDDOWN a PAGE_SIZE := by
  simp only [ROUNDDOWN, PAGE_SIZE]
  omega

theorem rounddown_mono_page (a b : Nat) (h : a ≤ b) :
    ROUNDDOWN a PAGE_SIZE ≤ ROUNDDOWN b PAGE_SIZE := by
  simp only [ROUNDDOWN, PAGE_SIZE]
  omega

theorem samePage_mod (offset i : Nat) (h : i < PAGE_SIZE - offset % PAGE_SIZE) :
    (offset + i) % PAGE_SIZE = offset % PAGE_SIZE + i ∧
    ROUNDDOWN (offset + i) PAGE_SIZE = ROUNDDOWN offset PAGE_SIZE := by
  simp only [ROUNDDOWN, PAGE_SIZE] at *
  omega

theorem nextChunk_rounddown (offset : Nat) :
    ROUNDDOWN (offset + (PAGE_SIZE - offset % PAGE_SIZE)) PAGE_SIZE =
      ROUNDDOWN offset PAGE_SIZE + PAGE_SIZE := by
  simp only [ROUNDDOWN, PAGE_SIZE]
  omega

theorem walkMissingGo_congr : ∀ (n : Nat) (p1 p2 : List (Nat × Nat)) (offset len : Nat),
    (∀ x, offset ≤ x → pageListGet p1 x = pageListGet p2 x) →
    walkMissingGo p1 n offset len = walkMissingGo p2 n offset len := by
  intro n
  induction n with
  | zero => intro p1 p2 offset len _; rfl
  | succ n ih =>
    intro p1 p2 offset len h
    simp only [walkMissingGo]
    by_cases hl : 0 < len
    · rw [if_pos hl, if_pos hl, h offset le_rfl,
        ih p1 p2 _ _ (fun x hx => h x (by omega))]
    · rw [if_neg hl, if_neg hl]

theorem faultableGo_congr : ∀ (n : Nat) (p1 p2 : List (Nat × Nat)) (avail offset len : Nat),
    (∀ x, offset ≤ x → pageListGet p1 x = pageListGet p2 x) →
    faultableGo p1 n avail offset len = faultableGo p2 n avail offset len := by
  intro n
  induction n with
  | zero => intro p1 p2 avail offset len _; rfl
  | succ n ih =>
    intro p1 p2 avail offset len h
    simp only [faultableGo]
    by_cases hl : 0 < len
    · rw [if_pos hl, if_pos hl, h offset le_rfl]
      cases pageListGet p2 offset with
      | some pid =>
        simp only [Option.isSome_some, if_true]
        rw [ih p1 p2 _ _ _ (fun x hx => h x (by omega))]
      | none =>
        simp only [Option.isSome_none, Bool.false_eq_true, if_false]
        cases avail with
        | zero => rfl
        | succ a =>
          dsimp only
          rw [ih p1 p2 _ _ _ (fun x hx => h x (by omega))]
    · rw [if_neg hl, if_neg hl]

theorem faultableGo_full : ∀ (n : Nat) (pages : List (Nat × Nat)) (avail offset len : Nat),
    len ≤ n → walkMissingGo pages n offset len ≤ avail →
    faultableGo pages n avail offset len = len := by
  intro n
  induction n with
  | zero =>
    intro pages avail offset len hn _
    simp only [faultableGo]
    omega
  | succ n ih =>
    intro pages avail offset len hn hw
    simp only [walkMissingGo] at hw
    simp only [faultableGo]
    by_cases hl : 0 < len
    · rw [if_pos hl] at hw ⊢
      have htc : 0 < min (PAGE_SIZE - offset % PAGE_SIZE) len ∧
          min (PAGE_SIZE - offset % PAGE_SIZE) len ≤ len := by
        simp only [PAGE_SIZE] at *
        omega
      cases hg : pageListGet pages offset with
      | some pid =>
        rw [hg] at hw
        simp only [Option.isSome_some, if_true] at hw
        simp only [Option.isSome_some, if_true]
        rw [ih pages avail _ _ (by omega) (by omega)]
        omega
      | none =>
        rw [hg] at hw
        simp only [Option.isSome_none, Bool.false_eq_true, if_false] at hw
        simp only [Option.isSome_none, Bool.false_eq_true, if_false]
        cases avail with
        | zero => omega
        | succ a =>
          dsimp only
          rw [ih pages a _ _ (by omega) (by omega)]
          omega
    · rw [if_neg hl]
      omega

theorem walkMissingGo_zero : ∀ (n : Nat) (pages : List (Nat × Nat)) (offset len : Nat),
    (∀ i, i < len → (pageListGet pages (offset + i)).isSome) →
    walkMissingGo pages n offset len = 0 := by
  intro n
  induction n with
  | zero => intro pages offset len _; rfl
  | succ n ih =>
    intro pages offset len h
    simp only [walkMissingGo]
    by_cases hl : 0 < len
    · rw [if_pos hl]
      have h0 : (pageListGet pages offset).isSome := by
        have := h 0 hl
        rwa [Nat.add_zero] at this
      rw [ih pages (offset + min (PAGE_SIZE - offset % PAGE_SIZE) len)
        (len - min (PAGE_SIZE - offset % PAGE_SIZE) len)
        (fun i hi => by
          have := h (min (PAGE_SIZE - offset % PAGE_SIZE) len + i) (by omega)
          rwa [← Nat.add_assoc] at this)]
      rw [show (if (pageListGet pages offset).isSome then 0 else 1) = 0 from by
        rw [h0]; rfl]
    · rw [if_neg hl]


theorem walkMissingGo_len_zero : ∀ (n : Nat) (p : List (Nat × Nat)) (offset : Nat),
    walkMissingGo p n offset 0 = 0 := by
  intro n p offset
  cases n <;> simp [walkMissingGo]

theorem faultableGo_len_zero : ∀ (n : Nat) (p : List (Nat × Nat)) (avail offset : Nat),
    faultableGo p n avail offset 0 = 0 := by
  intro n p avail offset
  cases n <;> simp [faultableGo]

theorem nodup_map_snd_eq (pages : List (Nat × Nat))
    (hnd : (pages.map Prod.snd).Nodup) (a b : Nat × Nat)
    (ha : a ∈ pages) (hb : b ∈ pages) (hab : a.2 = b.2) : a = b :=
  List.inj_on_of_nodup_map hnd ha hb hab

theorem rwGo_write_spec : ∀ (n : Nat) (w : World) (buf : List Nat)
    (offset len dest copied : Nat),
    len ≤ n → offset + len ≤ w.vmo.size → wfWorld w →
    ∃ w',
      rwGo (List Nat) write_routine n w buf offset len dest copied =
        ((if walkMissingGo w.vmo.pages n offset len ≤ w.pmm.free.length
          then status_t.NO_ERROR else status_t.ERR_NO_MEMORY),
         copied + faultableGo w.vmo.pages n w.pmm.free.length offset len, w', buf) ∧
      wfWorld w' ∧
      w'.vmo.size = w.vmo.size ∧
      (∀ o pid, pageListGet w.vmo.pages o = some pid →
        pageListGet w'.vmo.pages o = some pid) ∧
      (∀ i, i < faultableGo w.vmo.pages n w.pmm.free.length offset len →
        vmoByte w' (offset + i) = some (buf.getD (dest + i) 0)) ∧
      (∀ q j, q ∉ w.pmm.free →
        (∀ x ∈ w.vmo.pages, x.2 = q →
          ROUNDDOWN x.1 PAGE_SIZE < ROUNDDOWN offset PAGE_SIZE) →
        w'.mem q j = w.mem q j) ∧
      (len = 0 → w' = w) := by
  intro n
  induction n with
  | zero =>
    intro w buf offset len dest copied hn hin hwf
    have hl0 : len = 0 := by omega
    subst hl0
    refine ⟨w, ?_, hwf, rfl, fun o pid h => h, fun i hi => ?_, fun q j _ _ => rfl,
      fun _ => rfl⟩
    · simp [rwGo, walkMissingGo, faultableGo]
    · simp [faultableGo] at hi
  | succ n ih =>
    intro w buf offset len dest copied hn hin hwf
    by_cases hl : 0 < len
    · have hoff : ¬ offset ≥ w.vmo.size := by omega
      have htc1 : 0 < min (PAGE_SIZE - offset % PAGE_SIZE) len ∧
          min (PAGE_SIZE - offset % PAGE_SIZE) len ≤ len := by
        simp only [PAGE_SIZE] at *
        omega
      cases hg : pageListGet w.vmo.pages offset with
      | some pid =>
        have hfp : FaultPageLocked w offset = (some pid, w) := by
          simp [FaultPageLocked, if_neg hoff, hg]
        have hstep : rwGo (List Nat) write_routine (n + 1) w buf offset len dest copied =
            rwGo (List Nat) write_routine n
              { w with mem := memWriteBytes w.mem pid (offset % PAGE_SIZE) ((List.range (min (PAGE_SIZE - offset % PAGE_SIZE) len)).map (fun i => buf.getD (dest + i) 0)) }
              buf (offset + min (PAGE_SIZE - offset % PAGE_SIZE) len)
              (len - min (PAGE_SIZE - offset % PAGE_SIZE) len)
              (dest + min (PAGE_SIZE - offset % PAGE_SIZE) len)
              (copied + min (PAGE_SIZE - offset % PAGE_SIZE) len) := by
          simp [rwGo, if_pos hl, hfp, write_routine]
        obtain ⟨w', heq, hwf', hsz', hmono', hbytes', hframe', hzero'⟩ :=
          ih { w with mem := memWriteBytes w.mem pid (offset % PAGE_SIZE) ((List.range (min (PAGE_SIZE - offset % PAGE_SIZE) len)).map (fun i => buf.getD (dest + i) 0)) }
            buf (offset + min (PAGE_SIZE - offset % PAGE_SIZE) len)
            (len - min (PAGE_SIZE - offset % PAGE_SIZE) len)
            (dest + min (PAGE_SIZE - offset % PAGE_SIZE) len)
            (copied + min (PAGE_SIZE - offset % PAGE_SIZE) len)
            (by omega)
            (by show offset + min (PAGE_SIZE - offset % PAGE_SIZE) len +
                  (len - min (PAGE_SIZE - offset % PAGE_SIZE) len) ≤ w.vmo.size
                omega)
            (by exact hwf)
        have hwm : walkMissingGo w.vmo.pages (n + 1) offset len =
            walkMissingGo w.vmo.pages n (offset + min (PAGE_SIZE - offset % PAGE_SIZE) len)
              (len - min (PAGE_SIZE - offset % PAGE_SIZE) len) := by
          simp [walkMissingGo, if_pos hl, hg]
        have hfa : faultableGo w.vmo.pages (n + 1) w.pmm.free.length offset len =
            min (PAGE_SIZE - offset % PAGE_SIZE) len +
            faultableGo w.vmo.pages n w.pmm.free.length
              (offset + min (PAGE_SIZE - offset % PAGE_SIZE) len)
              (len - min (PAGE_SIZE - offset % PAGE_SIZE) len) := by
          simp [faultableGo, if_pos hl, hg]
        have hpidmem : (ROUNDDOWN offset PAGE_SIZE, pid) ∈ w.vmo.pages :=
          listGetKey_some_mem _ _ _ hg
        refine ⟨w', ?_, hwf', by rw [hsz'], ?_, ?_, ?_,
          fun h0 => absurd h0 (by omega)⟩
        · rw [hstep, heq, hwm, hfa, Nat.add_assoc]
        · intro o pid' h
          exact hmono' o pid' h
        · intro i hi
          rw [hfa] at hi
          by_cases hit : i < min (PAGE_SIZE - offset % PAGE_SIZE) len
          · have hsp := samePage_mod offset i
              (by simp only [PAGE_SIZE] at hit ⊢; omega)
            have hgeti : pageListGet w.vmo.pages (offset + i) = some pid := by
              show listGetKey w.vmo.pages (ROUNDDOWN (offset + i) PAGE_SIZE) = some pid
              rw [hsp.2]
              exact hg
            have hget' : pageListGet w'.vmo.pages (offset + i) = some pid :=
              hmono' _ _ hgeti
            have hmemeq : ∀ j, w'.mem pid j =
                memWriteBytes w.mem pid (offset % PAGE_SIZE) ((List.range (min (PAGE_SIZE - offset % PAGE_SIZE) len)).map (fun i => buf.getD (dest + i) 0)) pid j := by
              by_cases hrest : len - min (PAGE_SIZE - offset % PAGE_SIZE) len = 0
              · intro j
                rw [hzero' hrest]
              · intro j
                apply hframe'
                · exact hwf.2.2 _ hpidmem
                · intro x hx hxp
                  have hxent : x = (ROUNDDOWN offset PAGE_SIZE, pid) :=
                    nodup_map_snd_eq _ hwf.2.1 x _ hx hpidmem hxp
                  rw [hxent]
                  show ROUNDDOWN (ROUNDDOWN offset PAGE_SIZE) PAGE_SIZE <
                    ROUNDDOWN (offset + min (PAGE_SIZE - offset % PAGE_SIZE) len) PAGE_SIZE
                  rw [rounddown_rounddown]
                  have hfull : min (PAGE_SIZE - offset % PAGE_SIZE) len =
                      PAGE_SIZE - offset % PAGE_SIZE := by
                    simp only [PAGE_SIZE] at hrest ⊢
                    omega
                  rw [hfull, nextChunk_rounddown]
                  simp only [PAGE_SIZE]
                  omega
            simp only [vmoByte, hget', Option.map_some']
            rw [hmemeq, hsp.1, memWriteBytes_spec]
            rw [if_pos ⟨rfl, by omega, by
              rw [List.length_map, List.length_range]
              omega⟩]
            rw [show offset % PAGE_SIZE + i - offset % PAGE_SIZE = i from by omega]
            rw [map_range_getD _ _ _ hit]
          · have hi' : i - min (PAGE_SIZE - offset % PAGE_SIZE) len <
                faultableGo w.vmo.pages n w.pmm.free.length
                  (offset + min (PAGE_SIZE - offset % PAGE_SIZE) len)
                  (len - min (PAGE_SIZE - offset % PAGE_SIZE) len) := by omega
            have hb := hbytes' (i - min (PAGE_SIZE - offset % PAGE_SIZE) len) hi'
            rw [show offset + min (PAGE_SIZE - offset % PAGE_SIZE) len +
                (i - min (PAGE_SIZE - offset % PAGE_SIZE) len) = offset + i from by omega,
              show dest + min (PAGE_SIZE - offset % PAGE_SIZE) len +
                (i - min (PAGE_SIZE - offset % PAGE_SIZE) len) = dest + i from by omega] at hb
            exact hb
        · intro q j hqf hqe
          have h1 : w'.mem q j =
              memWriteBytes w.mem pid (offset % PAGE_SIZE) ((List.range (min (PAGE_SIZE - offset % PAGE_SIZE) len)).map (fun i => buf.getD (dest + i) 0)) q j := by
            apply hframe' q j hqf
            intro x hx hxq
            have h2 := hqe x hx hxq
            have h3 := rounddown_mono_page offset
              (offset + min (PAGE_SIZE - offset % PAGE_SIZE) len) (by omega)
            omega
          rw [h1, memWriteBytes_spec]
          rw [if_neg (by
            intro hcond
            have h4 := hqe _ hpidmem (by rw [hcond.1])
            rw [rounddown_rounddown] at h4
            omega)]
      | none =>
        cases hfree : w.pmm.free with
        | nil =>
          have hfp : FaultPageLocked w offset = (none, w) := by
            simp [FaultPageLocked, if_neg hoff, hg, pmm_alloc_page, hfree]
          have hstep : rwGo (List Nat) write_routine (n + 1) w buf offset len dest copied =
              (status_t.ERR_NO_MEMORY, copied, w, buf) := by
            simp [rwGo, if_pos hl, hfp]
          have hwm1 : 1 ≤ walkMissingGo w.vmo.pages (n + 1) offset len := by
            simp [walkMissingGo, if_pos hl, hg]
          have hfa0 : faultableGo w.vmo.pages (n + 1) ([] : List Nat).length offset len = 0 := by
            simp [faultableGo, if_pos hl, hg]
          refine ⟨w, ?_, hwf, rfl, fun o pid h => h, ?_, fun q j _ _ => rfl,
            fun h0 => absurd h0 (by omega)⟩
          · rw [hstep, hfa0, if_neg (by simp only [List.length_nil]; omega)]
            rfl
          · intro i hi
            rw [hfa0] at hi
            exact absurd hi (by omega)
        | cons pid rest =>
          have hf1 : pid ∉ rest := by
            have hnd := hwf.1
            rw [hfree] at hnd
            exact (List.nodup_cons.mp hnd).1
          have hpidfree : pid ∈ w.pmm.free := by
            rw [hfree]
            exact List.mem_cons_self pid rest
          have hfp : FaultPageLocked w offset = (some pid, { w with pmm := { w.pmm with free := rest }, mem := zeroPageMem w.mem pid, vmo := { w.vmo with pages := (ROUNDDOWN offset PAGE_SIZE, pid) :: w.vmo.pages } }) := by
            simp [FaultPageLocked, if_neg hoff, hg, pmm_alloc_page, hfree, pageListAdd]
          have hstep : rwGo (List Nat) write_routine (n + 1) w buf offset len dest copied =
              rwGo (List Nat) write_routine n { w with pmm := { w.pmm with free := rest }, mem := memWriteBytes (zeroPageMem w.mem pid) pid (offset % PAGE_SIZE) ((List.range (min (PAGE_SIZE - offset % PAGE_SIZE) len)).map (fun i => buf.getD (dest + i) 0)), vmo := { w.vmo with pages := (ROUNDDOWN offset PAGE_SIZE, pid) :: w.vmo.pages } } buf (offset + min (PAGE_SIZE - offset % PAGE_SIZE) len) (len - min (PAGE_SIZE - offset % PAGE_SIZE) len) (dest + min (PAGE_SIZE - offset % PAGE_SIZE) len) (copied + min (PAGE_SIZE - offset % PAGE_SIZE) len) := by
            simp [rwGo, if_pos hl, hfp, write_routine]
          have hwfWB : wfWorld { w with pmm := { w.pmm with free := rest }, mem := memWriteBytes (zeroPageMem w.mem pid) pid (offset % PAGE_SIZE) ((List.range (min (PAGE_SIZE - offset % PAGE_SIZE) len)).map (fun i => buf.getD (dest + i) 0)), vmo := { w.vmo with pages := (ROUNDDOWN offset PAGE_SIZE, pid) :: w.vmo.pages } } := by
            obtain ⟨hf, hs, hd⟩ := hwf
            rw [hfree] at hf
            rw [List.nodup_cons] at hf
            refine ⟨hf.2, ?_, ?_⟩
            · show ((((ROUNDDOWN offset PAGE_SIZE, pid) :: w.vmo.pages)).map Prod.snd).Nodup
              rw [List.map_cons, List.nodup_cons]
              refine ⟨?_, hs⟩
              intro hmem
              rw [List.mem_map] at hmem
              obtain ⟨x, hx, hxp⟩ := hmem
              have hin2 : x.2 ∈ w.pmm.free := by
                rw [hxp]
                exact hpidfree
              exact hd x hx hin2
            · intro x hx hmem
              rcases List.mem_cons.mp hx with hx1 | hx2
              · rw [hx1] at hmem
                exact hf.1 hmem
              · have hin2 : x.2 ∈ w.pmm.free := by
                  rw [hfree]
                  exact List.mem_cons_of_mem _ hmem
                exact hd x hx2 hin2
          obtain ⟨w', heq, hwf', hsz', hmono', hbytes', hframe', hzero'⟩ :=
            ih ({ w with pmm := { w.pmm with free := rest }, mem := memWriteBytes (zeroPageMem w.mem pid) pid (offset % PAGE_SIZE) ((List.range (min (PAGE_SIZE - offset % PAGE_SIZE) len)).map (fun i => buf.getD (dest + i) 0)), vmo := { w.vmo with pages := (ROUNDDOWN offset PAGE_SIZE, pid) :: w.vmo.pages } }) buf (offset + min (PAGE_SIZE - offset % PAGE_SIZE) len) (len - min (PAGE_SIZE - offset % PAGE_SIZE) len) (dest + min (PAGE_SIZE - offset % PAGE_SIZE) len) (copied + min (PAGE_SIZE - offset % PAGE_SIZE) len)
              (by omega)
              (by show offset + min (PAGE_SIZE - offset % PAGE_SIZE) len + (len - min (PAGE_SIZE - offset % PAGE_SIZE) len) ≤ w.vmo.size
                  omega)
              hwfWB
          rw [show ({ w with pmm := { w.pmm with free := rest }, mem := memWriteBytes (zeroPageMem w.mem pid) pid (offset % PAGE_SIZE) ((List.range (min (PAGE_SIZE - offset % PAGE_SIZE) len)).map (fun i => buf.getD (dest + i) 0)), vmo := { w.vmo with pages := (ROUNDDOWN offset PAGE_SIZE, pid) :: w.vmo.pages } } : World).vmo.pages = (ROUNDDOWN offset PAGE_SIZE, pid) :: w.vmo.pages from rfl,
            show ({ w with pmm := { w.pmm with free := rest }, mem := memWriteBytes (zeroPageMem w.mem pid) pid (offset % PAGE_SIZE) ((List.range (min (PAGE_SIZE - offset % PAGE_SIZE) len)).map (fun i => buf.getD (dest + i) 0)), vmo := { w.vmo with pages := (ROUNDDOWN offset PAGE_SIZE, pid) :: w.vmo.pages } } : World).pmm.free = rest from rfl] at heq
          have hwm : walkMissingGo w.vmo.pages (n + 1) offset len =
              1 + walkMissingGo w.vmo.pages n (offset + min (PAGE_SIZE - offset % PAGE_SIZE) len) (len - min (PAGE_SIZE - offset % PAGE_SIZE) len) := by
            simp [walkMissingGo, if_pos hl, hg]
          have hfa : faultableGo w.vmo.pages (n + 1) (pid :: rest).length offset len =
              min (PAGE_SIZE - offset % PAGE_SIZE) len + faultableGo w.vmo.pages n rest.length (offset + min (PAGE_SIZE - offset % PAGE_SIZE) len) (len - min (PAGE_SIZE - offset % PAGE_SIZE) len) := by
            simp [faultableGo, if_pos hl, hg]
          have hcong : walkMissingGo ((ROUNDDOWN offset PAGE_SIZE, pid) :: w.vmo.pages) n (offset + min (PAGE_SIZE - offset % PAGE_SIZE) len) (len - min (PAGE_SIZE - offset % PAGE_SIZE) len) =
                walkMissingGo w.vmo.pages n (offset + min (PAGE_SIZE - offset % PAGE_SIZE) len) (len - min (PAGE_SIZE - offset % PAGE_SIZE) len) ∧
              faultableGo ((ROUNDDOWN offset PAGE_SIZE, pid) :: w.vmo.pages) n rest.length (offset + min (PAGE_SIZE - offset % PAGE_SIZE) len) (len - min (PAGE_SIZE - offset % PAGE_SIZE) len) =
                faultableGo w.vmo.pages n rest.length (offset + min (PAGE_SIZE - offset % PAGE_SIZE) len) (len - min (PAGE_SIZE - offset % PAGE_SIZE) len) := by
            by_cases hrest0 : len - min (PAGE_SIZE - offset % PAGE_SIZE) len = 0
            · rw [hrest0, walkMissingGo_len_zero, walkMissingGo_len_zero,
                faultableGo_len_zero, faultableGo_len_zero]
              exact ⟨rfl, rfl⟩
            · have hfull : min (PAGE_SIZE - offset % PAGE_SIZE) len = PAGE_SIZE - offset % PAGE_SIZE := by
                simp only [PAGE_SIZE] at hrest0 ⊢
                omega
              have hpg : ∀ x, offset + min (PAGE_SIZE - offset % PAGE_SIZE) len ≤ x →
                  pageListGet ((ROUNDDOWN offset PAGE_SIZE, pid) :: w.vmo.pages) x = pageListGet w.vmo.pages x := by
                intro x hx
                apply pageListGet_cons_ne
                have h1 := rounddown_mono_page (offset + min (PAGE_SIZE - offset % PAGE_SIZE) len) x hx
                rw [hfull, nextChunk_rounddown] at h1
                simp only [ROUNDDOWN, PAGE_SIZE] at h1 ⊢
                omega
              exact ⟨walkMissingGo_congr n _ _ _ _ hpg,
                faultableGo_congr n _ _ _ _ _ hpg⟩
          refine ⟨w', ?_, hwf', by rw [hsz'], ?_, ?_, ?_,
            fun h0 => absurd h0 (by omega)⟩
          · rw [hstep, heq, hcong.1, hcong.2, hwm, hfa]
            have hiff : (walkMissingGo w.vmo.pages n (offset + min (PAGE_SIZE - offset % PAGE_SIZE) len) (len - min (PAGE_SIZE - offset % PAGE_SIZE) len) ≤ rest.length) ↔
                (1 + walkMissingGo w.vmo.pages n (offset + min (PAGE_SIZE - offset % PAGE_SIZE) len) (len - min (PAGE_SIZE - offset % PAGE_SIZE) len) ≤ (pid :: rest).length) := by
              simp only [List.length_cons]
              omega
            rw [if_congr hiff rfl rfl, Nat.add_assoc]
          · intro o pid' h
            apply hmono' o pid'
            show pageListGet ((ROUNDDOWN offset PAGE_SIZE, pid) :: w.vmo.pages) o = some pid'
            by_cases hk : ROUNDDOWN offset PAGE_SIZE = ROUNDDOWN o PAGE_SIZE
            · exfalso
              have hnone : pageListGet w.vmo.pages o = none := by
                show listGetKey w.vmo.pages (ROUNDDOWN o PAGE_SIZE) = none
                rw [← hk]
                exact hg
              rw [hnone] at h
              exact Option.noConfusion h
            · rw [pageListGet_cons_ne _ _ _ _ hk]
              exact h
          · intro i hi
            rw [hfa] at hi
            by_cases hit : i < min (PAGE_SIZE - offset % PAGE_SIZE) len
            · have hsp := samePage_mod offset i
                (by simp only [PAGE_SIZE] at hit ⊢; omega)
              have hgeti : pageListGet ((ROUNDDOWN offset PAGE_SIZE, pid) :: w.vmo.pages) (offset + i) = some pid := by
                show listGetKey ((ROUNDDOWN offset PAGE_SIZE, pid) :: w.vmo.pages) (ROUNDDOWN (offset + i) PAGE_SIZE) = some pid
                rw [hsp.2]
                simp [listGetKey]
              have hget' : pageListGet w'.vmo.pages (offset + i) = some pid :=
                hmono' _ _ hgeti
              have hmemeq : ∀ j, w'.mem pid j = (memWriteBytes (zeroPageMem w.mem pid) pid (offset % PAGE_SIZE) ((List.range (min (PAGE_SIZE - offset % PAGE_SIZE) len)).map (fun i => buf.getD (dest + i) 0))) pid j := by
                by_cases hrest : len - min (PAGE_SIZE - offset % PAGE_SIZE) len = 0
                · intro j
                  exact congrFun (congrFun (congrArg World.mem (hzero' hrest)) pid) j
                · intro j
                  apply hframe'
                  · show pid ∉ rest
                    exact hf1
                  · intro x hx hxq
                    rcases List.mem_cons.mp hx with hx1 | hx2
                    · rw [hx1]
                      show ROUNDDOWN (ROUNDDOWN offset PAGE_SIZE) PAGE_SIZE <
                        ROUNDDOWN (offset + min (PAGE_SIZE - offset % PAGE_SIZE) len) PAGE_SIZE
                      have hfull : min (PAGE_SIZE - offset % PAGE_SIZE) len = PAGE_SIZE - offset % PAGE_SIZE := by
                        simp only [PAGE_SIZE] at hrest ⊢
                        omega
                      rw [rounddown_rounddown, hfull, nextChunk_rounddown]
                      simp only [PAGE_SIZE]
                      omega
                    · exfalso
                      have hin2 : x.2 ∈ w.pmm.free := by
                        rw [hxq]
                        exact hpidfree
                      exact hwf.2.2 x hx2 hin2
              simp only [vmoByte, hget', Option.map_some']
              rw [hmemeq, hsp.1, memWriteBytes_spec]
              rw [if_pos ⟨rfl, by omega, by
                rw [List.length_map, List.length_range]
                omega⟩]
              rw [show offset % PAGE_SIZE + i - offset % PAGE_SIZE = i from by omega]
              rw [map_range_getD _ _ _ hit]
            · have hi' : i - min (PAGE_SIZE - offset % PAGE_SIZE) len < faultableGo ((ROUNDDOWN offset PAGE_SIZE, pid) :: w.vmo.pages) n rest.length (offset + min (PAGE_SIZE - offset % PAGE_SIZE) len) (len - min (PAGE_SIZE - offset % PAGE_SIZE) len) := by
                rw [hcong.2]
                omega
              have hb := hbytes' (i - min (PAGE_SIZE - offset % PAGE_SIZE) len) hi'
              rw [show offset + min (PAGE_SIZE - offset % PAGE_SIZE) len + (i - min (PAGE_SIZE - offset % PAGE_SIZE) len) = offset + i from by omega,
                show dest + min (PAGE_SIZE - offset % PAGE_SIZE) len + (i - min (PAGE_SIZE - offset % PAGE_SIZE) len) = dest + i from by omega] at hb
              exact hb
          · intro q j hqf hqe
            have hqpid : q ≠ pid := fun he => hqf (by rw [he]; exact List.mem_cons_self pid rest)
            have h1 : w'.mem q j = (memWriteBytes (zeroPageMem w.mem pid) pid (offset % PAGE_SIZE) ((List.range (min (PAGE_SIZE - offset % PAGE_SIZE) len)).map (fun i => buf.getD (dest + i) 0))) q j := by
              apply hframe' q j
              · show q ∉ rest
                intro hm
                exact hqf (List.mem_cons_of_mem _ hm)
              · intro x hx hxq
                rcases List.mem_cons.mp hx with hx1 | hx2
                · exfalso
                  apply hqpid
                  rw [← hxq, hx1]
                · have h2 := hqe x hx2 hxq
                  have h3 := rounddown_mono_page offset (offset + min (PAGE_SIZE - offset % PAGE_SIZE) len) (by omega)
                  omega
            rw [h1, memWriteBytes_spec,
              if_neg (by intro hcond; exact hqpid hcond.1)]
            show zeroPageMem w.mem pid q j = w.mem q j
            simp [zeroPageMem, hqpid]
    · have hl0 : len = 0 := by omega
      subst hl0
      refine ⟨w, ?_, hwf, rfl, fun o pid h => h, fun i hi => ?_, fun q j _ _ => rfl,
        fun _ => rfl⟩
      · simp [rwGo, walkMissingGo, faultableGo]
      · simp [faultableGo] at hi

theorem rwGo_read_spec : ∀ (n : Nat) (w : World) (out : List Nat)
    (offset len dest copied : Nat),
    len ≤ n → offset + len ≤ w.vmo.size → wfWorld w →
    ∃ w' out',
      rwGo (List Nat) read_routine n w out offset len dest copied =
        ((if walkMissingGo w.vmo.pages n offset len ≤ w.pmm.free.length
          then status_t.NO_ERROR else status_t.ERR_NO_MEMORY),
         copied + faultableGo w.vmo.pages n w.pmm.free.length offset len, w', out') ∧
      wfWorld w' ∧
      w'.vmo.size = w.vmo.size ∧
      (∀ o pid, pageListGet w.vmo.pages o = some pid →
        pageListGet w'.vmo.pages o = some pid) ∧
      out'.length = out.length ∧
      (∀ i, i < faultableGo w.vmo.pages n w.pmm.free.length offset len →
        dest + i < out.length →
        out'.getD (dest + i) 0 = (vmoByte w' (offset + i)).getD 0) ∧
      (∀ k, k < dest → out'.getD k 0 = out.getD k 0) ∧
      (∀ q j, q ∉ w.pmm.free →
        (∀ x ∈ w.vmo.pages, x.2 = q →
          ROUNDDOWN x.1 PAGE_SIZE < ROUNDDOWN offset PAGE_SIZE) →
        w'.mem q j = w.mem q j) ∧
      (walkMissingGo w.vmo.pages n offset len = 0 → w' = w) ∧
      (len = 0 → w' = w ∧ out' = out) := by
  intro n
  induction n with
  | zero =>
    intro w out offset len dest copied hn hin hwf
    have hl0 : len = 0 := by omega
    subst hl0
    refine ⟨w, out, ?_, hwf, rfl, fun o pid h => h, rfl, fun i hi _ => ?_,
      fun k hk => rfl, fun q j _ _ => rfl, fun _ => rfl, fun _ => ⟨rfl, rfl⟩⟩
    · simp [rwGo, walkMissingGo, faultableGo]
    · simp [faultableGo] at hi
  | succ n ih =>
    intro w out offset len dest copied hn hin hwf
    by_cases hl : 0 < len
    · have hoff : ¬ offset ≥ w.vmo.size := by omega
      have htc1 : 0 < min (PAGE_SIZE - offset % PAGE_SIZE) len ∧ min (PAGE_SIZE - offset % PAGE_SIZE) len ≤ len := by
        simp only [PAGE_SIZE] at *
        omega
      cases hg : pageListGet w.vmo.pages offset with
      | some pid =>
        have hfp : FaultPageLocked w offset = (some pid, w) := by
          simp [FaultPageLocked, if_neg hoff, hg]
        have hstep : rwGo (List Nat) read_routine (n + 1) w out offset len dest copied =
            rwGo (List Nat) read_routine n w (listWriteAt out dest (memBytes w.mem pid (offset % PAGE_SIZE) (min (PAGE_SIZE - offset % PAGE_SIZE) len))) (offset + min (PAGE_SIZE - offset % PAGE_SIZE) len) (len - min (PAGE_SIZE - offset % PAGE_SIZE) len) (dest + min (PAGE_SIZE - offset % PAGE_SIZE) len) (copied + min (PAGE_SIZE - offset % PAGE_SIZE) len) := by
          simp [rwGo, if_pos hl, hfp, read_routine]
        obtain ⟨w', out', heq, hwf', hsz', hmono', hlen', hbytes', hpre', hframe', hwalk0', hzero'⟩ :=
          ih w (listWriteAt out dest (memBytes w.mem pid (offset % PAGE_SIZE) (min (PAGE_SIZE - offset % PAGE_SIZE) len))) (offset + min (PAGE_SIZE - offset % PAGE_SIZE) len) (len - min (PAGE_SIZE - offset % PAGE_SIZE) len) (dest + min (PAGE_SIZE - offset % PAGE_SIZE) len) (copied + min (PAGE_SIZE - offset % PAGE_SIZE) len)
            (by omega) (by omega) hwf
        have hwm : walkMissingGo w.vmo.pages (n + 1) offset len =
            walkMissingGo w.vmo.pages n (offset + min (PAGE_SIZE - offset % PAGE_SIZE) len) (len - min (PAGE_SIZE - offset % PAGE_SIZE) len) := by
          simp [walkMissingGo, if_pos hl, hg]
        have hfa : faultableGo w.vmo.pages (n + 1) w.pmm.free.length offset len =
            min (PAGE_SIZE - offset % PAGE_SIZE) len + faultableGo w.vmo.pages n w.pmm.free.length (offset + min (PAGE_SIZE - offset % PAGE_SIZE) len) (len - min (PAGE_SIZE - offset % PAGE_SIZE) len) := by
          simp [faultableGo, if_pos hl, hg]
        have hpidmem : (ROUNDDOWN offset PAGE_SIZE, pid) ∈ w.vmo.pages :=
          listGetKey_some_mem _ _ _ hg
        refine ⟨w', out', ?_, hwf', hsz', hmono', ?_, ?_, ?_, ?_, ?_,
          fun h0 => absurd h0 (by omega)⟩
        · rw [hstep, heq, hwm, hfa, Nat.add_assoc]
        · rw [hlen']
          exact listWriteAt_length _ _ _
        · intro i hi hilen
          rw [hfa] at hi
          by_cases hit : i < min (PAGE_SIZE - offset % PAGE_SIZE) len
          · have hsp := samePage_mod offset i
              (by simp only [PAGE_SIZE] at hit ⊢; omega)
            have hgeti : pageListGet w.vmo.pages (offset + i) = some pid := by
              show listGetKey w.vmo.pages (ROUNDDOWN (offset + i) PAGE_SIZE) = some pid
              rw [hsp.2]
              exact hg
            have hget' : pageListGet w'.vmo.pages (offset + i) = some pid :=
              hmono' _ _ hgeti
            have hmemeq : w'.mem pid (offset % PAGE_SIZE + i) =
                w.mem pid (offset % PAGE_SIZE + i) := by
              by_cases hrest : len - min (PAGE_SIZE - offset % PAGE_SIZE) len = 0
              · rw [(hzero' hrest).1]
              · apply hframe'
                · exact hwf.2.2 _ hpidmem
                · intro x hx hxq
                  have hxent : x = (ROUNDDOWN offset PAGE_SIZE, pid) :=
                    nodup_map_snd_eq _ hwf.2.1 x _ hx hpidmem hxq
                  rw [hxent]
                  show ROUNDDOWN (ROUNDDOWN offset PAGE_SIZE) PAGE_SIZE <
                    ROUNDDOWN (offset + min (PAGE_SIZE - offset % PAGE_SIZE) len) PAGE_SIZE
                  have hfull : min (PAGE_SIZE - offset % PAGE_SIZE) len = PAGE_SIZE - offset % PAGE_SIZE := by
                    simp only [PAGE_SIZE] at hrest ⊢
                    omega
                  rw [rounddown_rounddown, hfull, nextChunk_rounddown]
                  simp only [PAGE_SIZE]
                  omega
            have hp := hpre' (dest + i) (by omega)
            rw [hp, listWriteAt_getD,
              if_pos ⟨by omega, by
                simp only [memBytes, List.length_map, List.length_range]
                omega, hilen⟩,
              show dest + i - dest = i from by omega]
            simp only [memBytes]
            rw [map_range_getD _ _ _ hit]
            simp only [vmoByte, hget', Option.map_some', Option.getD_some]
            rw [hsp.1, hmemeq]
          · have hi' : i - min (PAGE_SIZE - offset % PAGE_SIZE) len < faultableGo w.vmo.pages n w.pmm.free.length
                (offset + min (PAGE_SIZE - offset % PAGE_SIZE) len) (len - min (PAGE_SIZE - offset % PAGE_SIZE) len) := by omega
            have hb := hbytes' (i - min (PAGE_SIZE - offset % PAGE_SIZE) len) hi' (by rw [listWriteAt_length]; omega)
            rw [show offset + min (PAGE_SIZE - offset % PAGE_SIZE) len + (i - min (PAGE_SIZE - offset % PAGE_SIZE) len) = offset + i from by omega,
              show dest + min (PAGE_SIZE - offset % PAGE_SIZE) len + (i - min (PAGE_SIZE - offset % PAGE_SIZE) len) = dest + i from by omega] at hb
            exact hb
        · intro k hk
          rw [hpre' k (by omega), listWriteAt_getD, if_neg (by omega)]
        · intro q j hqf hqe
          apply hframe' q j hqf
          intro x hx hxq
          have h2 := hqe x hx hxq
          have h3 := rounddown_mono_page offset (offset + min (PAGE_SIZE - offset % PAGE_SIZE) len) (by omega)
          omega
        · intro hz
          rw [hwm] at hz
          exact hwalk0' hz
      | none =>
        cases hfree : w.pmm.free with
        | nil =>
          have hfp : FaultPageLocked w offset = (none, w) := by
            simp [FaultPageLocked, if_neg hoff, hg, pmm_alloc_page, hfree]
          have hstep : rwGo (List Nat) read_routine (n + 1) w out offset len dest copied =
              (status_t.ERR_NO_MEMORY, copied, w, out) := by
            simp [rwGo, if_pos hl, hfp]
          have hwm1 : 1 ≤ walkMissingGo w.vmo.pages (n + 1) offset len := by
            simp [walkMissingGo, if_pos hl, hg]
          have hfa0 : faultableGo w.vmo.pages (n + 1) ([] : List Nat).length offset len = 0 := by
            simp [faultableGo, if_pos hl, hg]
          refine ⟨w, out, ?_, hwf, rfl, fun o pid h => h, rfl, ?_,
            fun k hk => rfl, fun q j _ _ => rfl, ?_, fun h0 => absurd h0 (by omega)⟩
          · rw [hstep, hfa0, if_neg (by simp only [List.length_nil]; omega)]
            rfl
          · intro i hi hilen
            rw [hfa0] at hi
            exact absurd hi (by omega)
          · intro hz
            exact absurd hz (by omega)
        | cons pid rest =>
          have hf1 : pid ∉ rest := by
            have hnd := hwf.1
            rw [hfree] at hnd
            exact (List.nodup_cons.mp hnd).1
          have hpidfree : pid ∈ w.pmm.free := by
            rw [hfree]
            exact List.mem_cons_self pid rest
          have hfp : FaultPageLocked w offset = (some pid, { w with pmm := { w.pmm with free := rest }, mem := zeroPageMem w.mem pid, vmo := { w.vmo with pages := (ROUNDDOWN offset PAGE_SIZE, pid) :: w.vmo.pages } }) := by
            simp [FaultPageLocked, if_neg hoff, hg, pmm_alloc_page, hfree, pageListAdd]
          have hstep : rwGo (List Nat) read_routine (n + 1) w out offset len dest copied =
              rwGo (List Nat) read_routine n ({ w with pmm := { w.pmm with free := rest }, mem := zeroPageMem w.mem pid, vmo := { w.vmo with pages := (ROUNDDOWN offset PAGE_SIZE, pid) :: w.vmo.pages } }) (listWriteAt out dest (memBytes (zeroPageMem w.mem pid) pid (offset % PAGE_SIZE) (min (PAGE_SIZE - offset % PAGE_SIZE) len))) (offset + min (PAGE_SIZE - offset % PAGE_SIZE) len) (len - min (PAGE_SIZE - offset % PAGE_SIZE) len) (dest + min (PAGE_SIZE - offset % PAGE_SIZE) len) (copied + min (PAGE_SIZE - offset % PAGE_SIZE) len) := by
            simp [rwGo, if_pos hl, hfp, read_routine]
          have hwfW2 : wfWorld { w with pmm := { w.pmm with free := rest }, mem := zeroPageMem w.mem pid, vmo := { w.vmo with pages := (ROUNDDOWN offset PAGE_SIZE, pid) :: w.vmo.pages } } := by
            obtain ⟨hf, hs, hd⟩ := hwf
            rw [hfree] at hf
            rw [List.nodup_cons] at hf
            refine ⟨hf.2, ?_, ?_⟩
            · show ((((ROUNDDOWN offset PAGE_SIZE, pid) :: w.vmo.pages)).map Prod.snd).Nodup
              rw [List.map_cons, List.nodup_cons]
              refine ⟨?_, hs⟩
              intro hmem
              rw [List.mem_map] at hmem
              obtain ⟨x, hx, hxp⟩ := hmem
              have hin2 : x.2 ∈ w.pmm.free := by
                rw [hxp]
                exact hpidfree
              exact hd x hx hin2
            · intro x hx hmem
              rcases List.mem_cons.mp hx with hx1 | hx2
              · rw [hx1] at hmem
                exact hf.1 hmem
              · have hin2 : x.2 ∈ w.pmm.free := by
                  rw [hfree]
                  exact List.mem_cons_of_mem _ hmem
                exact hd x hx2 hin2
          obtain ⟨w', out', heq, hwf', hsz', hmono', hlen', hbytes', hpre', hframe', hwalk0', hzero'⟩ :=
            ih ({ w with pmm := { w.pmm with free := rest }, mem := zeroPageMem w.mem pid, vmo := { w.vmo with pages := (ROUNDDOWN offset PAGE_SIZE, pid) :: w.vmo.pages } }) (listWriteAt out dest (memBytes (zeroPageMem w.mem pid) pid (offset % PAGE_SIZE) (min (PAGE_SIZE - offset % PAGE_SIZE) len))) (offset + min (PAGE_SIZE - offset % PAGE_SIZE) len) (len - min (PAGE_SIZE - offset % PAGE_SIZE) len) (dest + min (PAGE_SIZE - offset % PAGE_SIZE) len) (copied + min (PAGE_SIZE - offset % PAGE_SIZE) len)
              (by omega)
              (by show offset + min (PAGE_SIZE - offset % PAGE_SIZE) len + (len - min (PAGE_SIZE - offset % PAGE_SIZE) len) ≤ w.vmo.size
                  omega)
              hwfW2
          rw [show ({ w with pmm := { w.pmm with free := rest }, mem := zeroPageMem w.mem pid, vmo := { w.vmo with pages := (ROUNDDOWN offset PAGE_SIZE, pid) :: w.vmo.pages } } : World).vmo.pages = (ROUNDDOWN offset PAGE_SIZE, pid) :: w.vmo.pages from rfl,
            show ({ w with pmm := { w.pmm with free := rest }, mem := zeroPageMem w.mem pid, vmo := { w.vmo with pages := (ROUNDDOWN offset PAGE_SIZE, pid) :: w.vmo.pages } } : World).pmm.free = rest from rfl] at heq
          have hwm : walkMissingGo w.vmo.pages (n + 1) offset len =
              1 + walkMissingGo w.vmo.pages n (offset + min (PAGE_SIZE - offset % PAGE_SIZE) len) (len - min (PAGE_SIZE - offset % PAGE_SIZE) len) := by
            simp [walkMissingGo, if_pos hl, hg]
          have hfa : faultableGo w.vmo.pages (n + 1) (pid :: rest).length offset len =
              min (PAGE_SIZE - offset % PAGE_SIZE) len + faultableGo w.vmo.pages n rest.length (offset + min (PAGE_SIZE - offset % PAGE_SIZE) len) (len - min (PAGE_SIZE - offset % PAGE_SIZE) len) := by
            simp [faultableGo, if_pos hl, hg]
          have hcong : walkMissingGo ((ROUNDDOWN offset PAGE_SIZE, pid) :: w.vmo.pages) n (offset + min (PAGE_SIZE - offset % PAGE_SIZE) len) (len - min (PAGE_SIZE - offset % PAGE_SIZE) len) =
                walkMissingGo w.vmo.pages n (offset + min (PAGE_SIZE - offset % PAGE_SIZE) len) (len - min (PAGE_SIZE - offset % PAGE_SIZE) len) ∧
              faultableGo ((ROUNDDOWN offset PAGE_SIZE, pid) :: w.vmo.pages) n rest.length (offset + min (PAGE_SIZE - offset % PAGE_SIZE) len) (len - min (PAGE_SIZE - offset % PAGE_SIZE) len) =
                faultableGo w.vmo.pages n rest.length (offset + min (PAGE_SIZE - offset % PAGE_SIZE) len) (len - min (PAGE_SIZE - offset % PAGE_SIZE) len) := by
            by_cases hrest0 : len - min (PAGE_SIZE - offset % PAGE_SIZE) len = 0
            · rw [hrest0, walkMissingGo_len_zero, walkMissingGo_len_zero,
                faultableGo_len_zero, faultableGo_len_zero]
              exact ⟨rfl, rfl⟩
            · have hfull : min (PAGE_SIZE - offset % PAGE_SIZE) len = PAGE_SIZE - offset % PAGE_SIZE := by
                simp only [PAGE_SIZE] at hrest0 ⊢
                omega
              have hpg : ∀ x, offset + min (PAGE_SIZE - offset % PAGE_SIZE) len ≤ x →
                  pageListGet ((ROUNDDOWN offset PAGE_SIZE, pid) :: w.vmo.pages) x = pageListGet w.vmo.pages x := by
                intro x hx
                apply pageListGet_cons_ne
                have h1 := rounddown_mono_page (offset + min (PAGE_SIZE - offset % PAGE_SIZE) len) x hx
                rw [hfull, nextChunk_rounddown] at h1
                simp only [ROUNDDOWN, PAGE_SIZE] at h1 ⊢
                omega
              exact ⟨walkMissingGo_congr n _ _ _ _ hpg,
                faultableGo_congr n _ _ _ _ _ hpg⟩
          refine ⟨w', out', ?_, hwf', by rw [hsz'], ?_, ?_, ?_, ?_, ?_, ?_,
            fun h0 => absurd h0 (by omega)⟩
          · rw [hstep, heq, hcong.1, hcong.2, hwm, hfa]
            have hiff : (walkMissingGo w.vmo.pages n (offset + min (PAGE_SIZE - offset % PAGE_SIZE) len) (len - min (PAGE_SIZE - offset % PAGE_SIZE) len) ≤ rest.length) ↔
                (1 + walkMissingGo w.vmo.pages n (offset + min (PAGE_SIZE - offset % PAGE_SIZE) len) (len - min (PAGE_SIZE - offset % PAGE_SIZE) len) ≤ (pid :: rest).length) := by
              simp only [List.length_cons]
              omega
            rw [if_congr hiff rfl rfl, Nat.add_assoc]
          · intro o pid' h
            apply hmono' o pid'
            show pageListGet ((ROUNDDOWN offset PAGE_SIZE, pid) :: w.vmo.pages) o = some pid'
            by_cases hk : ROUNDDOWN offset PAGE_SIZE = ROUNDDOWN o PAGE_SIZE
            · exfalso
              have hnone : pageListGet w.vmo.pages o = none := by
                show listGetKey w.vmo.pages (ROUNDDOWN o PAGE_SIZE) = none
                rw [← hk]
                exact hg
              rw [hnone] at h
              exact Option.noConfusion h
            · rw [pageListGet_cons_ne _ _ _ _ hk]
              exact h
          · rw [hlen']
            exact listWriteAt_length _ _ _
          · intro i hi hilen
            rw [hfa] at hi
            by_cases hit : i < min (PAGE_SIZE - offset % PAGE_SIZE) len
            · have hsp := samePage_mod offset i
                (by simp only [PAGE_SIZE] at hit ⊢; omega)
              have hgeti : pageListGet ((ROUNDDOWN offset PAGE_SIZE, pid) :: w.vmo.pages) (offset + i) = some pid := by
                show listGetKey ((ROUNDDOWN offset PAGE_SIZE, pid) :: w.vmo.pages) (ROUNDDOWN (offset + i) PAGE_SIZE) = some pid
                rw [hsp.2]
                simp [listGetKey]
              have hget' : pageListGet w'.vmo.pages (offset + i) = some pid :=
                hmono' _ _ hgeti
              have hmemeq : w'.mem pid (offset % PAGE_SIZE + i) =
                  zeroPageMem w.mem pid pid (offset % PAGE_SIZE + i) := by
                by_cases hrest : len - min (PAGE_SIZE - offset % PAGE_SIZE) len = 0
                · exact congrFun (congrFun (congrArg World.mem (hzero' hrest).1) pid) _
                · apply hframe'
                  · show pid ∉ rest
                    exact hf1
                  · intro x hx hxq
                    rcases List.mem_cons.mp hx with hx1 | hx2
                    · rw [hx1]
                      show ROUNDDOWN (ROUNDDOWN offset PAGE_SIZE) PAGE_SIZE <
                        ROUNDDOWN (offset + min (PAGE_SIZE - offset % PAGE_SIZE) len) PAGE_SIZE
                      have hfull : min (PAGE_SIZE - offset % PAGE_SIZE) len = PAGE_SIZE - offset % PAGE_SIZE := by
                        simp only [PAGE_SIZE] at hrest ⊢
                        omega
                      rw [rounddown_rounddown, hfull, nextChunk_rounddown]
                      simp only [PAGE_SIZE]
                      omega
                    · exfalso
                      have hin2 : x.2 ∈ w.pmm.free := by
                        rw [hxq]
                        exact hpidfree
                      exact hwf.2.2 x hx2 hin2
              have hp := hpre' (dest + i) (by omega)
              rw [hp, listWriteAt_getD,
                if_pos ⟨by omega, by
                  simp only [memBytes, List.length_map, List.length_range]
                  omega, hilen⟩,
                show dest + i - dest = i from by omega]
              simp only [memBytes]
              rw [map_range_getD _ _ _ hit]
              simp only [vmoByte, hget', Option.map_some', Option.getD_some]
              rw [hsp.1, hmemeq]
            · have hi' : i - min (PAGE_SIZE - offset % PAGE_SIZE) len < faultableGo ((ROUNDDOWN offset PAGE_SIZE, pid) :: w.vmo.pages) n rest.length (offset + min (PAGE_SIZE - offset % PAGE_SIZE) len) (len - min (PAGE_SIZE - offset % PAGE_SIZE) len) := by
                rw [hcong.2]
                omega
              have hb := hbytes' (i - min (PAGE_SIZE - offset % PAGE_SIZE) len) hi' (by rw [listWriteAt_length]; omega)
              rw [show offset + min (PAGE_SIZE - offset % PAGE_SIZE) len + (i - min (PAGE_SIZE - offset % PAGE_SIZE) len) = offset + i from by omega,
                show dest + min (PAGE_SIZE - offset % PAGE_SIZE) len + (i - min (PAGE_SIZE - offset % PAGE_SIZE) len) = dest + i from by omega] at hb
              exact hb
          · intro k hk
            rw [hpre' k (by omega), listWriteAt_getD, if_neg (by omega)]
          · intro q j hqf hqe
            have hqpid : q ≠ pid := fun he => hqf (by rw [he]; exact List.mem_cons_self pid rest)
            have h1 : w'.mem q j = zeroPageMem w.mem pid q j := by
              apply hframe' q j
              · show q ∉ rest
                intro hm
                exact hqf (List.mem_cons_of_mem _ hm)
              · intro x hx hxq
                rcases List.mem_cons.mp hx with hx1 | hx2
                · exfalso
                  apply hqpid
                  rw [← hxq, hx1]
                · have h2 := hqe x hx2 hxq
                  have h3 := rounddown_mono_page offset (offset + min (PAGE_SIZE - offset % PAGE_SIZE) len) (by omega)
                  omega
            rw [h1]
            simp [zeroPageMem, hqpid]
          · intro hz
            rw [hwm] at hz
            exact absurd hz (by omega)
    · have hl0 : len = 0 := by omega
      subst hl0
      refine ⟨w, out, ?_, hwf, rfl, fun o pid h => h, rfl, fun i hi _ => ?_,
        fun k hk => rfl, fun q j _ _ => rfl, fun _ => rfl, fun _ => ⟨rfl, rfl⟩⟩
      · simp [rwGo, walkMissingGo, faultableGo]
      · simp [faultableGo] at hi

/-- C3: Write-then-Read round-trip.  For any in-range (offset, len) with
enough free pages to fault the missing pages in, Write(buf, offset, len)
succeeds transferring len bytes, and an immediately following
Read(out, offset, len) succeeds, changes nothing, and returns exactly buf
-- regardless of which pages were committed beforehand. -/
theorem write_read_roundtrip (w : World) (buf out : List Nat) (offset len : Nat)
    (hwf : wfWorld w) (hin : offset + len ≤ w.vmo.size) (hl : 0 < len)
    (havail : walkMissing w.vmo.pages offset len ≤ w.pmm.free.length)
    (hbl : buf.length = len) (hol : out.length = len) :
    ∃ w1, Write w true buf offset len 0 = (status_t.NO_ERROR, len, w1, buf) ∧
      Read w1 true out offset len 0 = (status_t.NO_ERROR, len, w1, buf) := by
  obtain ⟨w1, heqW, hwf1, hsz1, hmono1, hbytes1, hframe1, hlen01⟩ :=
    rwGo_write_spec len w buf offset len 0 0 le_rfl hin hwf
  have havail2 : walkMissingGo w.vmo.pages len offset len ≤ w.pmm.free.length := havail
  have hfb : faultableGo w.vmo.pages len w.pmm.free.length offset len = len :=
    faultableGo_full len w.vmo.pages w.pmm.free.length offset len le_rfl havail2
  rw [if_pos havail2, hfb, Nat.zero_add] at heqW
  have hW : Write w true buf offset len 0 = (status_t.NO_ERROR, len, w1, buf) := by
    show ReadWriteInternal (List Nat) write_routine w buf offset len true = _
    simp only [ReadWriteInternal]
    rw [trimRange_in offset len w.vmo.size hin]
    dsimp only
    rw [if_neg (by omega)]
    exact heqW
  have hpres : ∀ i, i < len → (pageListGet w1.vmo.pages (offset + i)).isSome := by
    intro i hi
    have hb := hbytes1 i (by rw [hfb]; exact hi)
    rw [vmoByte] at hb
    cases hpg : pageListGet w1.vmo.pages (offset + i) with
    | none =>
      rw [hpg] at hb
      exact Option.noConfusion hb
    | some p => rfl
  have hwalk1 : walkMissingGo w1.vmo.pages len offset len = 0 :=
    walkMissingGo_zero len w1.vmo.pages offset len hpres
  obtain ⟨w2, out2, heqR, hwf2, hsz2, hmono2, hlen2, hbytes2, hpre2, hframe2, hwalk02, hlen02⟩ :=
    rwGo_read_spec len w1 out offset len 0 0 le_rfl (by rw [hsz1]; exact hin) hwf1
  have hw2 : w2 = w1 := hwalk02 hwalk1
  rw [hw2] at heqR hbytes2
  have hc2 : walkMissingGo w1.vmo.pages len offset len ≤ w1.pmm.free.length := by
    rw [hwalk1]
    omega
  have hfb2 : faultableGo w1.vmo.pages len w1.pmm.free.length offset len = len :=
    faultableGo_full len _ _ offset len le_rfl (by rw [hwalk1]; omega)
  rw [if_pos hc2, hfb2, Nat.zero_add] at heqR
  have hout : out2 = buf := by
    apply List.ext_getElem (by rw [hlen2, hol, hbl])
    intro i h1 h2
    have hi : i < len := by
      rw [hlen2, hol] at h1
      exact h1
    have hb2 := hbytes2 i (by rw [hfb2]; exact hi) (by omega)
    have hb1 := hbytes1 i (by rw [hfb]; exact hi)
    rw [Nat.zero_add] at hb2 hb1
    rw [hb1] at hb2
    rw [List.getD_eq_getElem?_getD, List.getD_eq_getElem?_getD,
      List.getElem?_eq_getElem h1, List.getElem?_eq_getElem h2] at hb2
    simpa using hb2
  have hR : Read w1 true out offset len 0 = (status_t.NO_ERROR, len, w1, buf) := by
    show ReadWriteInternal (List Nat) read_routine w1 out offset len false = _
    simp only [ReadWriteInternal]
    rw [trimRange_in offset len w1.vmo.size (by rw [hsz1]; exact hin)]
    dsimp only
    rw [if_neg (by omega), ← hout]
    exact heqR
  exact ⟨w1, hW, hR⟩

/-- Witness for C3: a two-page write at an unaligned offset into a fresh
VMO round-trips through Read. -/
theorem write_read_roundtrip_witness :
    ∃ w1, Write sampleW true [1, 2, 3, 4, 5, 6, 7, 8] 4090 8 0 =
        (status_t.NO_ERROR, 8, w1, [1, 2, 3, 4, 5, 6, 7, 8]) ∧
      Read w1 true [9, 9, 9, 9, 9, 9, 9, 9] 4090 8 0 =
        (status_t.NO_ERROR, 8, w1, [1, 2, 3, 4, 5, 6, 7, 8]) :=
  write_read_roundtrip sampleW [1, 2, 3, 4, 5, 6, 7, 8] [9, 9, 9, 9, 9, 9, 9, 9]
    4090 8 (by decide) (by decide) (by decide) (by decide) (by decide) (by decide)

/-- C7: partial progress of Read and Write on allocation failure.  When the
free list cannot cover the missing pages of an in-range walk, both Write
and Read return no_memory with *copied equal to the bytes of the chunks
before the failing page (faultableBytes); for Write those bytes are in the
VMO, for Read they are in the returned buffer. -/
theorem readWrite_partial_progress (w : World) (buf out : List Nat)
    (offset len : Nat)
    (hwf : wfWorld w) (hin : offset + len ≤ w.vmo.size) (hl : 0 < len)
    (hfail : w.pmm.free.length < walkMissing w.vmo.pages offset len) :
    (∃ w1, Write w true buf offset len 0 =
        (status_t.ERR_NO_MEMORY,
         faultableBytes w.vmo.pages w.pmm.free.length offset len, w1, buf) ∧
      (∀ i, i < faultableBytes w.vmo.pages w.pmm.free.length offset len →
        vmoByte w1 (offset + i) = some (buf.getD i 0))) ∧
    (∃ w2 out2, Read w true out offset len 0 =
        (status_t.ERR_NO_MEMORY,
         faultableBytes w.vmo.pages w.pmm.free.length offset len, w2, out2) ∧
      out2.length = out.length ∧
      (∀ i, i < faultableBytes w.vmo.pages w.pmm.free.length offset len →
        i < out.length →
        out2.getD i 0 = (vmoByte w2 (offset + i)).getD 0)) := by
  have hfail2 : ¬ walkMissingGo w.vmo.pages len offset len ≤ w.pmm.free.length := by
    have : w.pmm.free.length < walkMissingGo w.vmo.pages len offset len := hfail
    omega
  constructor
  · obtain ⟨w1, heqW, hwf1, hsz1, hmono1, hbytes1, hframe1, hlen01⟩ :=
      rwGo_write_spec len w buf offset len 0 0 le_rfl hin hwf
    rw [if_neg hfail2, Nat.zero_add] at heqW
    refine ⟨w1, ?_, ?_⟩
    · show ReadWriteInternal (List Nat) write_routine w buf offset len true = _
      simp only [ReadWriteInternal]
      rw [trimRange_in offset len w.vmo.size hin]
      dsimp only
      rw [if_neg (by omega)]
      exact heqW
    · intro i hi
      have hb := hbytes1 i hi
      rwa [Nat.zero_add] at hb
  · obtain ⟨w2, out2, heqR, hwf2, hsz2, hmono2, hlen2, hbytes2, hpre2, hframe2, hwalk02, hlen02⟩ :=
      rwGo_read_spec len w out offset len 0 0 le_rfl hin hwf
    rw [if_neg hfail2, Nat.zero_add] at heqR
    refine ⟨w2, out2, ?_, hlen2, ?_⟩
    · show ReadWriteInternal (List Nat) read_routine w out offset len false = _
      simp only [ReadWriteInternal]
      rw [trimRange_in offset len w.vmo.size hin]
      dsimp only
      rw [if_neg (by omega)]
      exact heqR
    · intro i hi hiout
      have hb := hbytes2 i hi (by omega)
      rwa [Nat.zero_add] at hb

/-- Witness for C7: a two-page walk against a single free page stops after
the first chunk with 6 bytes copied. -/
theorem readWrite_partial_progress_witness :
    (∃ w1, Write sampleW4 true [1, 2, 3, 4, 5, 6, 7, 8] 4090 8 0 =
        (status_t.ERR_NO_MEMORY,
         faultableBytes sampleW4.vmo.pages sampleW4.pmm.free.length 4090 8, w1,
         [1, 2, 3, 4, 5, 6, 7, 8]) ∧
      (∀ i, i < faultableBytes sampleW4.vmo.pages sampleW4.pmm.free.length 4090 8 →
        vmoByte w1 (4090 + i) = some ([1, 2, 3, 4, 5, 6, 7, 8].getD i 0))) ∧
    (∃ w2 out2, Read sampleW4 true [9, 9, 9, 9, 9, 9, 9, 9] 4090 8 0 =
        (status_t.ERR_NO_MEMORY,
         faultableBytes sampleW4.vmo.pages sampleW4.pmm.free.length 4090 8, w2, out2) ∧
      out2.length = ([9, 9, 9, 9, 9, 9, 9, 9] : List Nat).length ∧
      (∀ i, i < faultableBytes sampleW4.vmo.pages sampleW4.pmm.free.length 4090 8 →
        i < ([9, 9, 9, 9, 9, 9, 9, 9] : List Nat).length →
        out2.getD i 0 = (vmoByte w2 (4090 + i)).getD 0)) :=
  readWrite_partial_progress sampleW4 [1, 2, 3, 4, 5, 6, 7, 8] [9, 9, 9, 9, 9, 9, 9, 9]
    4090 8 (by decide) (by decide) (by decide) (by decide)
end MagentaVmo
